import Mathlib

/-!
Verification of the Rust-the-Forth interpreter.

This file shallowly embeds the interpreter's components — the bounded
stack (`src/stack/core.rs`), the calculator (`src/calculator/calculator.rs`),
the boolean/logical combinators (`src/forth/boolean_operations.rs`), the
tokenizer and parser (`src/forth/parser.rs`), the word-definition manager
(`src/forth/word.rs`), the execution handler
(`src/handler/instructions_handler.rs`), the top-level instruction
processor (`src/forth/forth.rs`) and the CLI configuration (`src/lib.rs`)
— and proves properties about them.

Modelling conventions:
* Characters are modelled by their Unicode code points as `Nat`; the
  helper `ch` turns a Lean character literal into its code.  Strings are
  `List Nat`.  Rust's byte indices and char indices coincide on the ASCII
  inputs the language manual covers; character classification functions
  (`is_whitespace`, `is_alphanumeric`, `to_lowercase`) are modelled on
  their ASCII fragment.
* `i16` values are modelled as `Int`; the arithmetic of `+`, `-`, `*`
  is modelled with two's-complement wrapping (`wrap16`, the release-mode
  semantics); no theorem below depends on overflow behaviour.
* Rust's `Vec<i16>` stack data is modelled as a `List Int` whose HEAD is
  the END of the vector (the top of the stack); `get_stack_content`
  therefore reverses the list to recover bottom-first order.
* A Rust method on `&mut self` that can fail is modelled by a result type
  that carries the (possibly partially mutated) state in both the ok and
  the error case, mirroring the behaviour of the `?` operator.
* A Rust panic (out-of-bounds indexing) is modelled by a dedicated
  `RunRes.panicked` outcome.
* Recursive execution is modelled with explicit fuel; `none` means the
  fuel ran out.  All theorems about execution results hold at the stated
  concrete fuel.
-/

namespace RustForth

/-- Code point of a character literal. -/
def ch (c : Char) : Nat := c.toNat

/-- ASCII lowercase of one code point (Rust `to_lowercase` /
`eq_ignore_ascii_case` restricted to ASCII). -/
def lowerChar (c : Nat) : Nat := if 65 ≤ c ∧ c ≤ 90 then c + 32 else c

/-- Lowercase a whole string (Rust `str::to_lowercase` on ASCII text). -/
def lowerLine (cs : List Nat) : List Nat := cs.map lowerChar

/-- ASCII decimal digit test (Rust `char::is_ascii_digit`). -/
def isDigitC (c : Nat) : Bool := 48 ≤ c && c ≤ 57

/-- Whitespace test (Rust `char::is_whitespace`, ASCII fragment:
space and the control characters TAB..CR). -/
def isWhitespaceC (c : Nat) : Bool := c == 32 || (9 ≤ c && c ≤ 13)

/-- Alphanumeric test (Rust `char::is_alphanumeric`, ASCII fragment). -/
def isAlphanumericC (c : Nat) : Bool :=
  isDigitC c || (65 ≤ c && c ≤ 90) || (97 ≤ c && c ≤ 122)

/-- ASCII punctuation test (Rust `char::is_ascii_punctuation`). -/
def isAsciiPunctuationC (c : Nat) : Bool :=
  (33 ≤ c && c ≤ 47) || (58 ≤ c && c ≤ 64) || (91 ≤ c && c ≤ 96) ||
    (123 ≤ c && c ≤ 126)

/-- Error kinds of `src/stack/stack_errors.rs`. -/
inductive StackError where
  | Underflow
  | Overflow
deriving DecidableEq, Repr

/-- Error kinds of `src/calculator/calculator_errors.rs`. -/
inductive CalculatorError where
  | DivisionByZero
  | UndifiedOperation
deriving DecidableEq, Repr

/-- Error kinds of `src/forth/forth_errors.rs`. -/
inductive ForthError where
  | InvalidWord
  | UnknownWord
deriving DecidableEq, Repr

/-- The unified error enum of `src/errors.rs`. -/
inductive Error where
  | StackError (e : StackError)
  | CalculatorError (e : CalculatorError)
  | ForthError (e : ForthError)
  | InvalidStackSize
  | MissingPathError
deriving DecidableEq, Repr

/-- Default byte capacity of the stack (`src/stack/core.rs`). -/
def DEFAULT_CAPACITY : Nat := 128

/-- The bounded stack of `src/stack/core.rs`.  `data`'s head is the top of
the stack (the end of the Rust `Vec`). -/
structure Stack where
  capacity : Nat
  size : Nat
  data : List Int
deriving DecidableEq, Repr

/-- Result of a stack method returning `Result<α, Error>` on `&mut self`:
both outcomes carry the possibly mutated stack. -/
inductive SRes (α : Type) where
  | ok (a : α) (s : Stack)
  | err (e : Error) (s : Stack)
deriving DecidableEq, Repr

/-- The stack carried by a result (the state after the call). -/
def SRes.state : SRes α → Stack
  | .ok _ s => s
  | .err _ s => s

/-- `Stack::new`: byte capacity divided by the element size 2; default
128 bytes. -/
def Stack.new (capacity : Option Nat) : Stack :=
  let capacity := capacity.getD DEFAULT_CAPACITY
  let element_size := 2
  { capacity := capacity / element_size, size := 0, data := [] }

/-- `Stack::is_empty`. -/
def Stack.isEmpty (s : Stack) : Bool := s.size == 0

/-- `Stack::push`: note the guard is `size > capacity`, not
`size >= capacity`. -/
def Stack.push (s : Stack) (element : Int) : SRes Unit :=
  let is_full := s.size > s.capacity
  if is_full then .err (.StackError .Overflow) s
  else .ok () { s with size := s.size + 1, data := element :: s.data }

/-- `Stack::drop`: checks `is_empty` (the `size` field), then pops the
`Vec` (which can itself be empty in a desynchronised state), then
decrements `size`. -/
def Stack.drop (s : Stack) : SRes Int :=
  if s.isEmpty then .err (.StackError .Underflow) s
  else
    match s.data with
    | [] => .err (.StackError .Underflow) s
    | dropped :: rest =>
        .ok dropped { s with size := s.size - 1, data := rest }

/-- `Stack::top`: never mutates. -/
def Stack.top (s : Stack) : SRes Int :=
  match s.data with
  | last :: _ => .ok last s
  | [] => .err (.StackError .Underflow) s

/-- `Stack::dup`. -/
def Stack.dup (s : Stack) : SRes Unit :=
  if s.size ≥ s.capacity then .err (.StackError .Overflow) s
  else
    match s.top with
    | .ok top s1 => .ok () ((s1.push top).state)
    | .err _ _ => .err (.StackError .Underflow) s

/-- `Stack::swap`: drops the last two elements and pushes them back in
the order `before_last` then `last` (which recreates the original
order). -/
def Stack.swap (s : Stack) : SRes Unit :=
  if s.size < 2 then .err (.StackError .Underflow) s
  else
    match s.drop with
    | .err e s1 => .err e s1
    | .ok last s1 =>
      match s1.drop with
      | .err e s2 => .err e s2
      | .ok before_last s2 =>
          let s3 := (s2.push before_last).state
          let s4 := (s3.push last).state
          .ok () s4

/-- `Stack::over`. -/
def Stack.over (s : Stack) : SRes Unit :=
  if s.size < 2 then .err (.StackError .Underflow) s
  else if s.size ≥ s.capacity then .err (.StackError .Overflow) s
  else
    match s.drop with
    | .err e s1 => .err e s1
    | .ok last s1 =>
      match s1.top with
      | .err e s2 => .err e s2
      | .ok before_last s2 =>
          let s3 := (s2.push last).state
          let s4 := (s3.push before_last).state
          .ok () s4

/-- `Stack::rot`: two drops collected into `tops` (failures silently
skipped), `tops` reversed, a third propagating drop, then the pushes. -/
def Stack.rot (s : Stack) : SRes Unit :=
  if s.size < 3 then .err (.StackError .Underflow) s
  else
    let p1 : List Int × Stack :=
      match s.drop with
      | .ok v s1 => ([v], s1)
      | .err _ s1 => ([], s1)
    let p2 : List Int × Stack :=
      match p1.2.drop with
      | .ok v s2 => (p1.1 ++ [v], s2)
      | .err _ s2 => (p1.1, s2)
    let tops := p2.1.reverse
    match p2.2.drop with
    | .err e s3 => .err e s3
    | .ok rotate s3 =>
        let s4 := tops.foldl (fun st elem => (st.push elem).state) s3
        .ok () ((s4.push rotate).state)

/-- `Stack::get_stack_content`: the `Vec` in bottom-first order. -/
def Stack.getStackContent (s : Stack) : List Int := s.data.reverse

/-- Well-formedness of a reachable stack: the `size` field tracks the
`Vec` length, and (because `push`'s guard is `size > capacity`) the size
never exceeds `capacity + 1`. -/
def Stack.wf (s : Stack) : Prop :=
  s.size = s.data.length ∧ s.size ≤ s.capacity + 1

instance (s : Stack) : Decidable s.wf := by
  unfold Stack.wf; infer_instance

/-! ## Calculator (`src/calculator/calculator.rs`) -/

/-- Two's-complement wrap of an integer into the `i16` range (release-mode
semantics of Rust `i16` arithmetic). -/
def wrap16 (x : Int) : Int := (x + 32768) % 65536 - 32768

/-- `Calculator::add`. -/
def Calculator.add (n1 n2 : Int) : Int := wrap16 (n1 + n2)

/-- `Calculator::subtract`. -/
def Calculator.subtract (n1 n2 : Int) : Int := wrap16 (n1 - n2)

/-- `Calculator::multiply`. -/
def Calculator.multiply (n1 n2 : Int) : Int := wrap16 (n1 * n2)

/-- `Calculator::divide`: `i16` division truncates toward zero
(`Int.tdiv`); division by zero errors. -/
def Calculator.divide (n1 n2 : Int) : Except Error Int :=
  if n2 = 0 then .error (.CalculatorError .DivisionByZero)
  else .ok (Int.tdiv n1 n2)

/-- `Calculator::calculate`: dispatch on the operator string. -/
def Calculator.calculate (n1 n2 : Int) (operation : List Nat) :
    Except Error Int :=
  if operation = [ch '+'] then .ok (Calculator.add n1 n2)
  else if operation = [ch '-'] then .ok (Calculator.subtract n1 n2)
  else if operation = [ch '*'] then .ok (Calculator.multiply n1 n2)
  else if operation = [ch '/'] then Calculator.divide n1 n2
  else .error (.CalculatorError .UndifiedOperation)

/-! ## Boolean and logical combinators (`src/forth/boolean_operations.rs`) -/

/-- Canonical true (`FORTH_TRUE` / `TRUE`). -/
def FORTH_TRUE : Int := -1

/-- Canonical false (`FORTH_FALSE` / `FALSE`). -/
def FORTH_FALSE : Int := 0

/-- The `BooleanOperation` enum. -/
inductive BooleanOperation where
  | And
  | Or
  | Not
deriving DecidableEq, Repr

/-- The `LogicalOperation` enum. -/
inductive LogicalOperation where
  | LessThan
  | GreaterThan
  | Equal
deriving DecidableEq, Repr

/-- `BooleanOperationManager::execute_boolean_operation`. -/
def executeBooleanOperation (operation : BooleanOperation) (op1 : Int)
    (op2 : Option Int) : Int :=
  match operation with
  | .And =>
      if op1 = FORTH_TRUE ∧ op2.getD 0 = FORTH_TRUE then FORTH_TRUE
      else FORTH_FALSE
  | .Or =>
      if op1 = FORTH_TRUE ∨ op2.getD 0 = FORTH_TRUE then FORTH_TRUE
      else FORTH_FALSE
  | .Not => if op1 = 0 then FORTH_TRUE else FORTH_FALSE

/-- `BooleanOperationManager::execute_logical_operations`. -/
def executeLogicalOperations (operation : LogicalOperation)
    (op1 op2 : Int) : Int :=
  match operation with
  | .LessThan => if op1 < op2 then FORTH_TRUE else FORTH_FALSE
  | .GreaterThan => if op1 > op2 then FORTH_TRUE else FORTH_FALSE
  | .Equal => if op1 = op2 then FORTH_TRUE else FORTH_FALSE

/-- `BooleanOperationManager::is_not`. -/
def isNot (operation : BooleanOperation) : Bool :=
  match operation with
  | .Not => true
  | _ => false

/-! ## Instruction and compiled-word data types
(`ForthInstruction` / `ForthData` / `DefineWord` as used throughout
`src/forth/parser.rs`, `src/forth/word.rs` and `src/forth/forth.rs`) -/

/-- The `StackOperation` enum (`src/stack/stack_operations.rs`). -/
inductive StackOperation where
  | Dup
  | Drop
  | Swap
  | Over
  | Rot
deriving DecidableEq, Repr

/-- The `DefineWord` enum: a user-word reference or a conditional
marker. -/
inductive DefineWord where
  | Name (n : List Nat)
  | If
  | Else
  | Then
deriving DecidableEq, Repr

/-- The `ForthInstruction` enum (parsed opcodes). -/
inductive ForthInstruction where
  | Number (n : Int)
  | Operator (op : List Nat)
  | StackWord (op : StackOperation)
  | StartDefinition
  | EndDefinition
  | DefineWord (d : RustForth.DefineWord)
  | BooleanOperation (op : RustForth.BooleanOperation)
  | LogicalOperation (op : RustForth.LogicalOperation)
  | OutputDot
  | OutpuEmit
  | OutputCR
  | OutputDotQuote (s : List Nat)
deriving DecidableEq, Repr

/-- The `ForthData` enum (compiled opcodes): like `ForthInstruction`
without the definition delimiters, plus `DefinitionIndex`. -/
inductive ForthData where
  | Number (n : Int)
  | Operator (op : List Nat)
  | StackWord (op : StackOperation)
  | DefineWord (d : RustForth.DefineWord)
  | DefinitionIndex (i : Nat)
  | BooleanOperation (op : RustForth.BooleanOperation)
  | LogicalOperation (op : RustForth.LogicalOperation)
  | OutputDot
  | OutpuEmit
  | OutputCR
  | OutputDotQuote (s : List Nat)
deriving DecidableEq, Repr

/-- `execute_stack_operation` (`src/stack/stack_operations.rs`). -/
def executeStackOperation (stack : Stack) (operation : StackOperation) :
    SRes Unit :=
  match operation with
  | .Dup => stack.dup
  | .Swap => stack.swap
  | .Over => stack.over
  | .Rot => stack.rot
  | .Drop =>
      match stack.drop with
      | .ok _ s => .ok () s
      | .err e s => .err e s

/-! ## Number parsing (Rust `str::parse`) -/

/-- Value of a non-empty all-digit string. -/
def digitsVal? (cs : List Nat) : Option Nat :=
  if cs = [] then none
  else if cs.all isDigitC then
    some (cs.foldl (fun acc c => acc * 10 + (c - 48)) 0)
  else none

/-- Rust `str::parse::<i16>()`: optional sign, at least one digit, value
within the `i16` range. -/
def parseI16 (cs : List Nat) : Option Int :=
  match cs with
  | [] => none
  | c :: rest =>
    if c = ch '-' then
      (digitsVal? rest).bind fun n =>
        if (n : Int) ≤ 32768 then some (-(n : Int)) else none
    else if c = ch '+' then
      (digitsVal? rest).bind fun n =>
        if n ≤ 32767 then some (n : Int) else none
    else
      (digitsVal? cs).bind fun n =>
        if n ≤ 32767 then some (n : Int) else none

/-- Rust `str::parse::<usize>()`: optional `+` sign, at least one digit,
value below `2^64`. -/
def parseUsize (cs : List Nat) : Option Nat :=
  match cs with
  | [] => none
  | c :: rest =>
    if c = ch '+' then
      (digitsVal? rest).bind fun n => if n < 2 ^ 64 then some n else none
    else
      (digitsVal? cs).bind fun n => if n < 2 ^ 64 then some n else none

/-! ## Word-definition manager (`src/forth/word.rs`) -/

/-- Lookup in an association list (models `HashMap::get`; only
`Word::UserDefined` keys are ever inserted, so keys are plain names). -/
def assocLookup (m : List (List Nat × Nat)) (k : List Nat) : Option Nat :=
  match m with
  | [] => none
  | (k', v) :: rest => if k' = k then some v else assocLookup rest k

/-- Insert/overwrite in an association list (models `HashMap::insert`). -/
def assocInsert (m : List (List Nat × Nat)) (k : List Nat) (v : Nat) :
    List (List Nat × Nat) :=
  match m with
  | [] => [(k, v)]
  | (k', v') :: rest =>
      if k' = k then (k, v) :: rest else (k', v') :: assocInsert rest k v

/-- The `WordManager` struct: the name→index dictionary, the append-only
vector of compiled bodies, the invocation stack (head = top of the Rust
`Vec`) and the conditional nesting level. -/
structure WordManager where
  words : List (List Nat × Nat)
  definitions : List (List ForthData)
  executionStack : List (List Nat)
  nestingLevel : Nat
deriving DecidableEq, Repr

/-- `WordManager::new`. -/
def WordManager.new : WordManager :=
  { words := [], definitions := [], executionStack := [], nestingLevel := 0 }

/-- `WordManager::is_word_defined`. -/
def isWordDefined (wm : WordManager) (name : List Nat) : Bool :=
  (assocLookup wm.words name).isSome

/-- `WordManager::is_valid_word_name`: must not parse as an `i16`, and
every character must be alphanumeric or ASCII punctuation. -/
def isValidWordName (name : List Nat) : Bool :=
  if (parseI16 name).isSome then false
  else name.all fun c => isAlphanumericC c || isAsciiPunctuationC c

/-- `find_end_definition`: index of the first `EndDefinition`. -/
def findEndDefinition : List ForthInstruction → Option Nat
  | [] => none
  | .EndDefinition :: _ => some 0
  | _ :: rest => (findEndDefinition rest).map (· + 1)

/-- `WordManager::convert_to_word_defintion`: one instruction becomes
zero or more compiled elements; a reference to an already-defined word is
frozen to its current body index, a reference to an undefined word is
silently dropped; the delimiters are invalid inside a body. -/
def convertToWordDefintion (wm : WordManager)
    (instruction : ForthInstruction) : Except Error (List ForthData) :=
  match instruction with
  | .Number number => .ok [.Number number]
  | .Operator operator => .ok [.Operator operator]
  | .StackWord stack_word => .ok [.StackWord stack_word]
  | .DefineWord (.Name name) =>
      if isWordDefined wm name then
        match assocLookup wm.words name with
        | some index => .ok [.DefinitionIndex index]
        | none => .ok []
      else .ok []
  | .DefineWord .If => .ok [.DefineWord .If]
  | .DefineWord .Then => .ok [.DefineWord .Then]
  | .DefineWord .Else => .ok [.DefineWord .Else]
  | .BooleanOperation boolean_operation => .ok [.BooleanOperation boolean_operation]
  | .LogicalOperation logical_operation => .ok [.LogicalOperation logical_operation]
  | .OutputDot => .ok [.OutputDot]
  | .OutpuEmit => .ok [.OutpuEmit]
  | .OutputCR => .ok [.OutputCR]
  | .OutputDotQuote s => .ok [.OutputDotQuote s]
  | .StartDefinition => .error (.ForthError .InvalidWord)
  | .EndDefinition => .error (.ForthError .InvalidWord)

/-- The conversion loop inside `define_new_word`: convert each element,
propagating the first error. -/
def convertAll (wm : WordManager) : List ForthInstruction →
    Except Error (List ForthData)
  | [] => .ok []
  | element :: rest =>
    match convertToWordDefintion wm element with
    | .error e => .error e
    | .ok expanded =>
      match convertAll wm rest with
      | .error e => .error e
      | .ok tail => .ok (expanded ++ tail)

/-- `WordManager::define_new_word`: validate the name, locate the first
`EndDefinition` (error if absent), compile the body up to it, append it
to the definitions vector and (re)map the name to the new index. -/
def defineNewWord (wm : WordManager) (name : List Nat)
    (body : List ForthInstruction) : Except Error WordManager :=
  if ¬ isValidWordName name then .error (.ForthError .InvalidWord)
  else
    match findEndDefinition body with
    | none => .error (.ForthError .InvalidWord)
    | some end_index =>
      let word_definition := body.take end_index
      match convertAll wm word_definition with
      | .error e => .error e
      | .ok definition =>
        let index := wm.definitions.length
        .ok { wm with
              definitions := wm.definitions ++ [definition],
              words := assocInsert wm.words name index }

/-- The scanning loop of `find_index_instruction`: `If` raises the
nesting level, `Then` matches at level 0 (else lowers it), `Else` matches
at level 0. -/
def findIndexLoop (instructions : List ForthData) (start offset : Nat)
    (nesting_level : Int) (target : ForthData) : Option Nat :=
  match instructions with
  | [] => none
  | instruction :: rest =>
    match instruction with
    | .DefineWord .If =>
        findIndexLoop rest start (offset + 1) (nesting_level + 1) target
    | .DefineWord .Then =>
        if nesting_level = 0 ∧ target = .DefineWord .Then then
          some (start + offset)
        else findIndexLoop rest start (offset + 1) (nesting_level - 1) target
    | .DefineWord .Else =>
        if nesting_level = 0 ∧ target = .DefineWord .Else then
          some (start + offset)
        else findIndexLoop rest start (offset + 1) nesting_level target
    | _ => findIndexLoop rest start (offset + 1) nesting_level target

/-- `WordManager::find_index_instruction`: scan the suffix of body
`def_index` starting at `start` for the matching control marker. -/
def findIndexInstruction (wm : WordManager) (def_index start : Nat)
    (target : ForthData) : Option Nat :=
  let instructions := ((wm.definitions.get? def_index).map
    (fun d => d.drop start)).getD []
  findIndexLoop instructions start 0 0 target

/-! ## Execution state and `WordManager::execute_instruction` -/

/-- Decimal digits of a natural number. -/
def natDigits (n : Nat) : List Nat := (Nat.toDigits 10 n).map Char.toNat

/-- Rust `write!("{}", x)` rendering of an `i16` value. -/
def fmtInt (n : Int) : List Nat :=
  if n < 0 then ch '-' :: natDigits n.natAbs else natDigits n.toNat

/-- The mutable state threaded through word execution: the manager (its
`execution_stack` and `nesting_level` fields mutate), the operand stack,
whether a writer is configured, and the bytes written so far. -/
structure ExecState where
  wm : WordManager
  stack : Stack
  writerPresent : Bool
  output : List Nat
deriving DecidableEq, Repr

/-- Result of execution: `Ok(())` or a propagated error, with the state
as mutated so far. -/
inductive ExecRes where
  | ok (st : ExecState)
  | err (e : Error) (st : ExecState)
deriving DecidableEq, Repr

/-- `WordManager::execute_instruction`: the interpretation loop over body
`def_index` starting at instruction `i`.  Fuel bounds the recursion
(`DefinitionIndex` and `If` recurse; the loop itself also consumes one
unit per step); `none` means the fuel ran out.  The `break` statements of
the `Else`/`Then` arms return `Ok` from the current call.  Note the
swapped argument order `calculate(operand2, operand1, _)` in the
`Operator` arm, copied from the source. -/
def execInstr : Nat → Nat → Nat → ExecState → Option ExecRes
  | 0, _, _, _ => none
  | fuel + 1, defIndex, i, st =>
    match (st.wm.definitions.get? defIndex).bind (fun d => d.get? i) with
    | none => some (.ok st)
    | some instruction =>
      match instruction with
      | .Number number =>
          match st.stack.push number with
          | .err e s => some (.err e { st with stack := s })
          | .ok _ s => execInstr fuel defIndex (i + 1) { st with stack := s }
      | .Operator operator =>
          match st.stack.drop with
          | .err e s => some (.err e { st with stack := s })
          | .ok operand2 s1 =>
            match s1.drop with
            | .err e s => some (.err e { st with stack := s })
            | .ok operand1 s2 =>
              match Calculator.calculate operand2 operand1 operator with
              | .error e => some (.err e { st with stack := s2 })
              | .ok result =>
                match s2.push result with
                | .err e s => some (.err e { st with stack := s })
                | .ok _ s3 =>
                    execInstr fuel defIndex (i + 1) { st with stack := s3 }
      | .StackWord stack_word =>
          match executeStackOperation st.stack stack_word with
          | .err e s => some (.err e { st with stack := s })
          | .ok _ s => execInstr fuel defIndex (i + 1) { st with stack := s }
      | .DefineWord (.Name name) =>
          execInstr fuel defIndex (i + 1)
            { st with wm :=
              { st.wm with executionStack := name :: st.wm.executionStack } }
      | .DefinitionIndex index =>
          match execInstr fuel index 0 st with
          | none => none
          | some (.err e st') => some (.err e st')
          | some (.ok st') => execInstr fuel defIndex (i + 1) st'
      | .BooleanOperation boolean_operation =>
          match st.stack.drop with
          | .err e s => some (.err e { st with stack := s })
          | .ok operand1 s1 =>
            if isNot boolean_operation then
              let result := executeBooleanOperation boolean_operation operand1 none
              match s1.push result with
              | .err e s => some (.err e { st with stack := s })
              | .ok _ s2 => execInstr fuel defIndex (i + 1) { st with stack := s2 }
            else
              match s1.drop with
              | .err e s => some (.err e { st with stack := s })
              | .ok operand2 s2 =>
                let result :=
                  executeBooleanOperation boolean_operation operand1 (some operand2)
                match s2.push result with
                | .err e s => some (.err e { st with stack := s })
                | .ok _ s3 => execInstr fuel defIndex (i + 1) { st with stack := s3 }
      | .LogicalOperation logical_operation =>
          match st.stack.drop with
          | .err e s => some (.err e { st with stack := s })
          | .ok operand2 s1 =>
            match s1.drop with
            | .err e s => some (.err e { st with stack := s })
            | .ok operand1 s2 =>
              let result :=
                executeLogicalOperations logical_operation operand1 operand2
              match s2.push result with
              | .err e s => some (.err e { st with stack := s })
              | .ok _ s3 => execInstr fuel defIndex (i + 1) { st with stack := s3 }
      | .OutputDot =>
          match st.stack.drop with
          | .ok top s =>
              let st' :=
                if st.writerPresent then
                  { st with
                    stack := s,
                    output := st.output ++ fmtInt top ++ [ch ' '] }
                else { st with stack := s }
              execInstr fuel defIndex (i + 1) st'
          | .err _ s => execInstr fuel defIndex (i + 1) { st with stack := s }
      | .OutputCR =>
          let st' :=
            if st.writerPresent then { st with output := st.output ++ [10] }
            else st
          execInstr fuel defIndex (i + 1) st'
      | .OutpuEmit =>
          if st.writerPresent then
            match st.stack.drop with
            | .ok top s =>
                if 0 ≤ top ∧ top ≤ 255 then
                  execInstr fuel defIndex (i + 1)
                    { st with
                      stack := s,
                      output := st.output ++ [top.toNat, ch ' '] }
                else execInstr fuel defIndex (i + 1) { st with stack := s }
            | .err _ s => execInstr fuel defIndex (i + 1) { st with stack := s }
          else execInstr fuel defIndex (i + 1) st
      | .OutputDotQuote string =>
          let st' :=
            if st.writerPresent then
              { st with output := st.output ++ string ++ [ch ' '] }
            else st
          execInstr fuel defIndex (i + 1) st'
      | .DefineWord .If =>
          let then_index :=
            findIndexInstruction st.wm defIndex (i + 1) (.DefineWord .Then)
          let else_index :=
            findIndexInstruction st.wm defIndex (i + 1) (.DefineWord .Else)
          match st.stack.drop with
          | .err e s => some (.err e { st with stack := s })
          | .ok condition s1 =>
            let st1 := { st with stack := s1 }
            match then_index with
            | none => execInstr fuel defIndex (i + 1) st1
            | some thenIdx =>
              let st2 := { st1 with wm :=
                { st1.wm with nestingLevel := st1.wm.nestingLevel + 1 } }
              if condition = FORTH_TRUE ∨ condition ≠ FORTH_FALSE then
                match execInstr fuel defIndex (i + 1) st2 with
                | none => none
                | some (.err e st') => some (.err e st')
                | some (.ok st') => execInstr fuel defIndex (thenIdx + 1) st'
              else
                match else_index with
                | some elseIdx =>
                    match execInstr fuel defIndex (elseIdx + 1) st2 with
                    | none => none
                    | some (.err e st') => some (.err e st')
                    | some (.ok st') => execInstr fuel defIndex (thenIdx + 1) st'
                | none => execInstr fuel defIndex (thenIdx + 1) st2
      | .DefineWord .Else =>
          if st.wm.nestingLevel > 0 then some (.ok st)
          else execInstr fuel defIndex (i + 1) st
      | .DefineWord .Then =>
          let nl := st.wm.nestingLevel
          let nl' := if nl > 0 then nl - 1 else nl
          let st' := { st with wm := { st.wm with nestingLevel := nl' } }
          if nl' > 0 then some (.ok st')
          else execInstr fuel defIndex (i + 1) st'

/-- The `while let Some(current_word) = self.execution_stack.pop()` loop
of `WordManager::execute_word`. -/
def execWordLoop : Nat → ExecState → Option ExecRes
  | 0, _ => none
  | fuel + 1, st =>
    match st.wm.executionStack with
    | [] => some (.ok st)
    | current_word :: rest =>
      let st1 := { st with wm := { st.wm with executionStack := rest } }
      match assocLookup st1.wm.words current_word with
      | none => some (.err (.ForthError .UnknownWord) st1)
      | some index =>
        match execInstr fuel index 0 st1 with
        | none => none
        | some (.err e st') => some (.err e st')
        | some (.ok st') => execWordLoop fuel st'

/-- `WordManager::execute_word`: push the name on the invocation stack
and run the loop (the final `execution_stack.clear()` is a no-op on the
success path, where the loop already emptied it). -/
def executeWord (fuel : Nat) (st : ExecState) (word_name : List Nat) :
    Option ExecRes :=
  execWordLoop fuel
    { st with wm :=
      { st.wm with executionStack := word_name :: st.wm.executionStack } }

/-! ## Execution handler (`src/handler/instructions_handler.rs`) -/

/-- The mutable state of an `ExecutionHandler`: its own stack, writer
presence and written bytes. -/
structure HandlerState where
  stack : Stack
  writerPresent : Bool
  output : List Nat
deriving DecidableEq, Repr

/-- Result of a handler method. -/
inductive HRes where
  | ok (h : HandlerState)
  | err (e : Error) (h : HandlerState)
deriving DecidableEq, Repr

/-- `ExecutionHandler::handle_calculate`: `operand2` is the old top,
`operand1` below it, and the call is `calculate(operand1, operand2, _)`
(the order the specification describes). -/
def handleCalculate (hs : HandlerState) (operation : List Nat) : HRes :=
  match hs.stack.drop with
  | .err e s => .err e { hs with stack := s }
  | .ok operand2 s1 =>
    match s1.drop with
    | .err e s => .err e { hs with stack := s }
    | .ok operand1 s2 =>
      match Calculator.calculate operand1 operand2 operation with
      | .error e => .err e { hs with stack := s2 }
      | .ok result =>
        match s2.push result with
        | .err e s => .err e { hs with stack := s }
        | .ok _ s3 => .ok { hs with stack := s3 }

/-- `ExecutionHandler::handle_output_dot`: the drop happens before the
writer is consulted, so the top is popped even without a writer. -/
def handleOutputDot (hs : HandlerState) : HRes :=
  match hs.stack.drop with
  | .ok top s =>
      if hs.writerPresent then
        .ok { hs with
              stack := s, output := hs.output ++ fmtInt top ++ [ch ' '] }
      else .ok { hs with stack := s }
  | .err _ s => .ok { hs with stack := s }

/-- `ExecutionHandler::handle_output_cr`. -/
def handleOutputCr (hs : HandlerState) : HRes :=
  if hs.writerPresent then .ok { hs with output := hs.output ++ [10] }
  else .ok hs

/-- `ExecutionHandler::handle_output_emit`: drop first, then the `u8`
range check, then the writer check. -/
def handleOutputEmit (hs : HandlerState) : HRes :=
  match hs.stack.drop with
  | .ok top s =>
      if 0 ≤ top ∧ top ≤ 255 then
        if hs.writerPresent then
          .ok { hs with
                stack := s, output := hs.output ++ [top.toNat, ch ' '] }
        else .ok { hs with stack := s }
      else .ok { hs with stack := s }
  | .err _ s => .ok { hs with stack := s }

/-- `ExecutionHandler::handle_output_dot_quote`. -/
def handleOutputDotQuote (hs : HandlerState) (string : List Nat) : HRes :=
  if hs.writerPresent then
    .ok { hs with output := hs.output ++ string ++ [ch ' '] }
  else .ok hs

/-! ## Tokenizer (`Parser::tokenize`, `src/forth/parser.rs`) -/

/-- The slice `input[a..b]`. -/
def slice (input : List Nat) (a b : Nat) : List Nat := (input.take b).drop a

/-- `input[i..].starts_with(".\" ")`. -/
def startsWithDQ (input : List Nat) (i : Nat) : Bool :=
  match input.drop i with
  | c1 :: c2 :: c3 :: _ => c1 == ch '.' && c2 == ch '"' && c3 == ch ' '
  | _ => false

/-- The inner `while i < chars.len() && chars[i] != '"'` scan: the first
position `≥ i` holding `"` (or the length if none).  The loop advances
`i` by one per step, so running it with fuel `input.length + 1` from any
position is exact; the fuel only makes the recursion structural. -/
def findQuote (input : List Nat) : Nat → Nat → Nat
  | 0, i => i
  | fuel + 1, i =>
    if i < input.length then
      if input.getD i 0 = ch '"' then i else findQuote input fuel (i + 1)
    else i

theorem findQuote_ge (input : List Nat) :
    ∀ (fuel i : Nat), i ≤ findQuote input fuel i := by
  intro fuel
  induction fuel with
  | zero => intro i; rfl
  | succ fuel ih =>
      intro i
      rw [findQuote]
      split
      · split
        · omega
        · exact le_trans (by omega) (ih (i + 1))
      · omega

/-- The main tokenizer loop, faithful to the mutable-index loop of
`Parser::tokenize` (`in_quotes` is omitted: the source sets and clears it
within a single iteration, so it is always `false` when tested; the
locals `c`/`tokens1`/`j` of the source are inlined).  The index strictly
increases on every iteration, so fuel `input.length + 1` makes the
recursion structural without ever being exhausted; the fuel-0 arm repeats
the loop-exit path. -/
def tokenizeLoop (input : List Nat) :
    Nat → Nat → Nat → List (List Nat) → List (List Nat)
  | 0, _, start, tokens =>
      if start < input.length then tokens ++ [slice input start input.length]
      else tokens
  | fuel + 1, i, start, tokens =>
    if i < input.length then
      if input.getD i 0 == ch '.' && startsWithDQ input i then
        if findQuote input (input.length + 1) (i + 2) < input.length then
          tokenizeLoop input fuel
            (findQuote input (input.length + 1) (i + 2) + 1)
            (findQuote input (input.length + 1) (i + 2) + 1)
            ((if start < i then tokens ++ [slice input start i] else tokens) ++
              [slice input i (findQuote input (input.length + 1) (i + 2) + 1)])
        else
          tokenizeLoop input fuel
            (findQuote input (input.length + 1) (i + 2))
            (findQuote input (input.length + 1) (i + 2))
            (if start < i then tokens ++ [slice input start i] else tokens)
      else if isWhitespaceC (input.getD i 0) then
        tokenizeLoop input fuel (i + 1) (i + 1)
          (if start < i then tokens ++ [slice input start i] else tokens)
      else if input.getD i 0 == ch ':' || input.getD i 0 == ch ';' then
        tokenizeLoop input fuel (i + 1) (i + 1)
          ((if start < i then tokens ++ [slice input start i] else tokens) ++
            [[input.getD i 0]])
      else tokenizeLoop input fuel (i + 1) start tokens
    else if start < input.length then tokens ++ [slice input start input.length]
    else tokens

/-- `Parser::tokenize`. -/
def tokenize (input : List Nat) : List (List Nat) :=
  tokenizeLoop input (input.length + 1) 0 0 []

/-- Offset of the first `"` in a list (its length if none); used to
characterise `findQuote`. -/
def firstQuoteIdx : List Nat → Nat
  | [] => 0
  | c :: rest => if c = ch '"' then 0 else firstQuoteIdx rest + 1

/-! ## Token classification (`Parser::parse_token` and helpers) -/

/-- The `ParserState` enum. -/
inductive ParserState where
  | OutsideDefinition
  | InsideDefinition
  | ParsingWordName
deriving DecidableEq, Repr

/-- `Parser::is_number`: optional leading `-` followed by at least one
digit, or all digits. -/
def isNumber (token : List Nat) : Bool :=
  match token with
  | [] => false
  | c :: rest =>
    if c == ch '-' then decide (rest ≠ []) && rest.all isDigitC
    else token.all isDigitC

/-- Rust `eq_ignore_ascii_case`. -/
def eqIgnoreAsciiCase (a b : List Nat) : Bool := lowerLine a == lowerLine b

/-- `Parser::is_operator`. -/
def isOperatorTok (token : List Nat) : Bool :=
  token == [ch '+'] || token == [ch '-'] || token == [ch '*'] ||
    token == [ch '/']

/-- `Parser::parse_logical_operation`. -/
def parseLogicalOperation (token : List Nat) : Option ForthInstruction :=
  if eqIgnoreAsciiCase token [ch '<'] then
    some (.LogicalOperation .LessThan)
  else if eqIgnoreAsciiCase token [ch '>'] then
    some (.LogicalOperation .GreaterThan)
  else if eqIgnoreAsciiCase token [ch '='] then
    some (.LogicalOperation .Equal)
  else none

/-- `Parser::parse_boolean_operation`. -/
def parseBooleanOperation (token : List Nat) : Option ForthInstruction :=
  if eqIgnoreAsciiCase token [ch 'a', ch 'n', ch 'd'] then
    some (.BooleanOperation .And)
  else if eqIgnoreAsciiCase token [ch 'o', ch 'r'] then
    some (.BooleanOperation .Or)
  else if eqIgnoreAsciiCase token [ch 'n', ch 'o', ch 't'] then
    some (.BooleanOperation .Not)
  else none

/-- `Parser::parse_stack_operation`: a user definition shadows the
reserved spellings. -/
def parseStackOperation (token : List Nat) (wm : WordManager) :
    Option ForthInstruction :=
  if isWordDefined wm token then some (.DefineWord (.Name token))
  else if eqIgnoreAsciiCase token [ch 'd', ch 'u', ch 'p'] then
    some (.StackWord .Dup)
  else if eqIgnoreAsciiCase token [ch 'd', ch 'r', ch 'o', ch 'p'] then
    some (.StackWord .Drop)
  else if eqIgnoreAsciiCase token [ch 's', ch 'w', ch 'a', ch 'p'] then
    some (.StackWord .Swap)
  else if eqIgnoreAsciiCase token [ch 'o', ch 'v', ch 'e', ch 'r'] then
    some (.StackWord .Over)
  else if eqIgnoreAsciiCase token [ch 'r', ch 'o', ch 't'] then
    some (.StackWord .Rot)
  else none

/-- `Parser::parse_word`: a defined word wins verbatim; the conditional
keywords are matched case-insensitively; anything else becomes a
lower-cased name. -/
def parseWord (token : List Nat) (wm : WordManager) :
    Option ForthInstruction :=
  if isWordDefined wm token then some (.DefineWord (.Name token))
  else if eqIgnoreAsciiCase token [ch 'i', ch 'f'] then
    some (.DefineWord .If)
  else if eqIgnoreAsciiCase token [ch 'e', ch 'l', ch 's', ch 'e'] then
    some (.DefineWord .Else)
  else if eqIgnoreAsciiCase token [ch 't', ch 'h', ch 'e', ch 'n'] then
    some (.DefineWord .Then)
  else some (.DefineWord (.Name (lowerLine token)))

/-- `token.starts_with('.')`. -/
def startsWithDot (token : List Nat) : Bool :=
  match token with
  | c :: _ => c == ch '.'
  | [] => false

/-- `token.ends_with('"')`. -/
def endsWithQuote (token : List Nat) : Bool :=
  match token.getLast? with
  | some c => c == ch '"'
  | none => false

/-- `&token[3..token.len() - 1]`.  (For a pathological token shorter than
4 characters the Rust slice panics; no claim exercises that input and the
model clamps instead.) -/
def dotQuoteContent (token : List Nat) : List Nat := (token.drop 3).dropLast

/-- The spelling `emit`. -/
def emitTok : List Nat := [ch 'e', ch 'm', ch 'i', ch 't']

/-- The spelling `cr`. -/
def crTok : List Nat := [ch 'c', ch 'r']

/-- `Parser::parse_token`: the per-state guard chains, in source order.
Note that in `OutsideDefinition` a user word shadowing an operator is
lower-cased while in `InsideDefinition` it is not, and that a name token
in `ParsingWordName` is taken verbatim. -/
def parseToken (token : List Nat) (instructions : List ForthInstruction)
    (state : ParserState) (wm : WordManager) :
    List ForthInstruction × ParserState :=
  match state with
  | .OutsideDefinition =>
    if token == [ch ':'] then
      (instructions ++ [.StartDefinition], .ParsingWordName)
    else if token == [ch ';'] then
      (instructions ++ [.EndDefinition], .OutsideDefinition)
    else if token == [ch '.'] then
      (instructions ++ [.OutputDot], .OutsideDefinition)
    else if eqIgnoreAsciiCase token emitTok then
      (instructions ++ [.OutpuEmit], .OutsideDefinition)
    else if eqIgnoreAsciiCase token crTok then
      (instructions ++ [.OutputCR], .OutsideDefinition)
    else if startsWithDot token && endsWithQuote token then
      (instructions ++ [.OutputDotQuote (dotQuoteContent token)],
        .OutsideDefinition)
    else if isNumber token then
      match parseI16 token with
      | some parsed_num => (instructions ++ [.Number parsed_num], .OutsideDefinition)
      | none => (instructions, .OutsideDefinition)
    else if isOperatorTok token then
      if isWordDefined wm token then
        (instructions ++ [.DefineWord (.Name (lowerLine token))],
          .OutsideDefinition)
      else (instructions ++ [.Operator token], .OutsideDefinition)
    else if (parseStackOperation token wm).isSome then
      match parseStackOperation token wm with
      | some stack_op => (instructions ++ [stack_op], .OutsideDefinition)
      | none => (instructions, .OutsideDefinition)
    else if (parseLogicalOperation token).isSome then
      match parseLogicalOperation token with
      | some logical_op => (instructions ++ [logical_op], .OutsideDefinition)
      | none => (instructions, .OutsideDefinition)
    else if (parseBooleanOperation token).isSome then
      match parseBooleanOperation token with
      | some boolean_op => (instructions ++ [boolean_op], .OutsideDefinition)
      | none => (instructions, .OutsideDefinition)
    else
      match parseWord token wm with
      | some word => (instructions ++ [word], .OutsideDefinition)
      | none => (instructions, .OutsideDefinition)
  | .ParsingWordName =>
      (instructions ++ [.DefineWord (.Name token)], .InsideDefinition)
  | .InsideDefinition =>
    if token == [ch ';'] then
      (instructions ++ [.EndDefinition], .OutsideDefinition)
    else if token == [ch '.'] then
      (instructions ++ [.OutputDot], .InsideDefinition)
    else if eqIgnoreAsciiCase token emitTok then
      (instructions ++ [.OutpuEmit], .InsideDefinition)
    else if eqIgnoreAsciiCase token crTok then
      (instructions ++ [.OutputCR], .InsideDefinition)
    else if startsWithDot token && endsWithQuote token then
      (instructions ++ [.OutputDotQuote (dotQuoteContent token)],
        .InsideDefinition)
    else if isNumber token then
      match parseI16 token with
      | some parsed_num => (instructions ++ [.Number parsed_num], .InsideDefinition)
      | none => (instructions, .InsideDefinition)
    else if isOperatorTok token then
      if isWordDefined wm token then
        (instructions ++ [.DefineWord (.Name token)], .InsideDefinition)
      else (instructions ++ [.Operator token], .InsideDefinition)
    else if (parseLogicalOperation token).isSome then
      match parseLogicalOperation token with
      | some logical_op => (instructions ++ [logical_op], .InsideDefinition)
      | none => (instructions, .InsideDefinition)
    else if (parseBooleanOperation token).isSome then
      match parseBooleanOperation token with
      | some boolean_op => (instructions ++ [boolean_op], .InsideDefinition)
      | none => (instructions, .InsideDefinition)
    else if (parseStackOperation token wm).isSome then
      match parseStackOperation token wm with
      | some stack_op => (instructions ++ [stack_op], .InsideDefinition)
      | none => (instructions, .InsideDefinition)
    else
      match parseWord token wm with
      | some word => (instructions ++ [word], .InsideDefinition)
      | none => (instructions, .InsideDefinition)

/-- `Parser::parse_instructions`: tokenize, then fold `parse_token` over
the tokens starting from `OutsideDefinition`. -/
def parseInstructions (input : List Nat) (wm : WordManager) :
    List ForthInstruction :=
  ((tokenize input).foldl
    (fun acc token => parseToken token acc.1 acc.2 wm)
    ([], ParserState.OutsideDefinition)).1

/-! ## Stack-size argument and CLI configuration
(`Parser::parse_stack_size`, `Config::build` in `src/lib.rs`) -/

/-- Rust `str::split("=")` (keeps empty parts). -/
def splitOnEqAux : List Nat → List Nat → List (List Nat)
  | [], cur => [cur.reverse]
  | c :: rest, cur =>
      if c = ch '=' then cur.reverse :: splitOnEqAux rest []
      else splitOnEqAux rest (c :: cur)

/-- `input.split("=").collect::<Vec<_>>()`. -/
def splitOnEq (input : List Nat) : List (List Nat) := splitOnEqAux input []

/-- `Parser::parse_stack_size`: exactly two `=`-separated parts and the
second parses as a `usize`; the first part is never inspected. -/
def parseStackSize (input : List Nat) : Except Error Nat :=
  let parts := splitOnEq input
  if parts.length ≠ 2 then .error .InvalidStackSize
  else
    match parseUsize (parts.getD 1 []) with
    | some size => .ok size
    | none => .error .InvalidStackSize

/-- The `Config` struct of `src/lib.rs`. -/
structure Config where
  filePath : List Nat
  stackSize : Option Nat
deriving DecidableEq, Repr

/-- `Config::build`: argument 1 is the required path; an optional third
argument is fed to `parse_stack_size`, and a parse failure is non-fatal
(`stack_size` stays `None`). -/
def Config.build (args : List (List Nat)) : Except Error Config :=
  if args.length < 2 ∨ args.getD 1 [] = [] then .error .MissingPathError
  else
    let stack_size : Option Nat :=
      if args.length = 3 ∧ args.getD 2 [] ≠ [] then
        match parseStackSize (args.getD 2 []) with
        | .ok size => some size
        | .error _ => none
      else none
    .ok { filePath := args.getD 1 [], stackSize := stack_size }

/-! ## Top-level processing (`Forth::process_data`, `Forth::process_word`
in `src/forth/forth.rs`) and the per-line pipeline of `run`
(`src/lib.rs`) -/

/-- A Rust call outcome that may be a panic (out-of-bounds indexing). -/
inductive RunRes (α : Type) where
  | panicked
  | ret (r : α)
deriving DecidableEq, Repr

/-- The enumeration loop of `Forth::process_word`: on the first
`StartDefinition` at index `i` the element `data[i + 1]` is indexed
directly — a panic when it does not exist — and must be a name; the body
is everything from `i + 2` on. -/
def processWordGo (wm : WordManager) (data : List ForthInstruction) :
    Nat → List ForthInstruction → RunRes (Except Error WordManager)
  | _, [] => .ret (.ok wm)
  | i, element :: rest =>
    match element with
    | .StartDefinition =>
      match data.get? (i + 1) with
      | none => .panicked
      | some (.DefineWord (.Name word_name)) =>
          .ret (defineNewWord wm word_name (data.drop (i + 2)))
      | some _ => .ret (.error (.ForthError .InvalidWord))
    | _ => processWordGo wm data (i + 1) rest

/-- `Forth::process_word`. -/
def processWord (wm : WordManager) (data : List ForthInstruction) :
    RunRes (Except Error WordManager) :=
  processWordGo wm data 0 data

/-- Result of `Forth::process_data`: a panic, or success/error with the
interpreter state. -/
inductive PRes where
  | panicked
  | ok (st : ExecState)
  | err (e : Error) (st : ExecState)
deriving DecidableEq, Repr

/-- The enumeration loop of `Forth::process_data`: each instruction in
turn; `StartDefinition` hands the suffix to `process_word` and breaks;
a name is executed through the word manager; note that `Forth::calculate`
ignores the result of the final push, and that the top-level
`BooleanOperation` arm always pops two operands. -/
def processDataGo (fuel : Nat) (data : List ForthInstruction) :
    Nat → List ForthInstruction → ExecState → Option PRes
  | _, [], st => some (.ok st)
  | i, element :: rest, st =>
    match element with
    | .Number number =>
        match st.stack.push number with
        | .err e s => some (.err e { st with stack := s })
        | .ok _ s => processDataGo fuel data (i + 1) rest { st with stack := s }
    | .Operator operator =>
        match st.stack.drop with
        | .err e s => some (.err e { st with stack := s })
        | .ok operand2 s1 =>
          match s1.drop with
          | .err e s => some (.err e { st with stack := s })
          | .ok operand1 s2 =>
            match Calculator.calculate operand1 operand2 operator with
            | .error e => some (.err e { st with stack := s2 })
            | .ok result =>
                let s3 := (s2.push result).state
                processDataGo fuel data (i + 1) rest { st with stack := s3 }
    | .StackWord stack_word =>
        match executeStackOperation st.stack stack_word with
        | .err e s => some (.err e { st with stack := s })
        | .ok _ s => processDataGo fuel data (i + 1) rest { st with stack := s }
    | .StartDefinition =>
        match processWord st.wm (data.drop i) with
        | .panicked => some .panicked
        | .ret (.error e) => some (.err e st)
        | .ret (.ok wm') => some (.ok { st with wm := wm' })
    | .DefineWord (.Name name) =>
        if ¬ isWordDefined st.wm name then
          some (.err (.ForthError .UnknownWord) st)
        else
          match executeWord fuel st name with
          | none => none
          | some (.err e st') => some (.err e st')
          | some (.ok st') => processDataGo fuel data (i + 1) rest st'
    | .BooleanOperation boolean_operation =>
        match st.stack.drop with
        | .err e s => some (.err e { st with stack := s })
        | .ok operand2 s1 =>
          match s1.drop with
          | .err e s => some (.err e { st with stack := s })
          | .ok operand1 s2 =>
            let result :=
              executeBooleanOperation boolean_operation operand1 (some operand2)
            match s2.push result with
            | .err e s => some (.err e { st with stack := s })
            | .ok _ s3 =>
                processDataGo fuel data (i + 1) rest { st with stack := s3 }
    | .LogicalOperation logical_operation =>
        match st.stack.drop with
        | .err e s => some (.err e { st with stack := s })
        | .ok operand2 s1 =>
          match s1.drop with
          | .err e s => some (.err e { st with stack := s })
          | .ok operand1 s2 =>
            let result :=
              executeLogicalOperations logical_operation operand1 operand2
            match s2.push result with
            | .err e s => some (.err e { st with stack := s })
            | .ok _ s3 =>
                processDataGo fuel data (i + 1) rest { st with stack := s3 }
    | .OutputDot =>
        match st.stack.drop with
        | .ok top s =>
            let st' :=
              if st.writerPresent then
                { st with
                  stack := s,
                  output := st.output ++ fmtInt top ++ [ch ' '] }
              else { st with stack := s }
            processDataGo fuel data (i + 1) rest st'
        | .err _ s =>
            processDataGo fuel data (i + 1) rest { st with stack := s }
    | .OutputCR =>
        let st' :=
          if st.writerPresent then { st with output := st.output ++ [10] }
          else st
        processDataGo fuel data (i + 1) rest st'
    | .OutpuEmit =>
        match st.stack.drop with
        | .ok top s =>
            if 0 ≤ top ∧ top ≤ 255 then
              let st' :=
                if st.writerPresent then
                  { st with
                    stack := s,
                    output := st.output ++ [top.toNat, ch ' '] }
                else { st with stack := s }
              processDataGo fuel data (i + 1) rest st'
            else processDataGo fuel data (i + 1) rest { st with stack := s }
        | .err _ s =>
            processDataGo fuel data (i + 1) rest { st with stack := s }
    | .OutputDotQuote string =>
        let st' :=
          if st.writerPresent then
            { st with output := st.output ++ string ++ [ch ' '] }
          else st
        processDataGo fuel data (i + 1) rest st'
    | .EndDefinition => processDataGo fuel data (i + 1) rest st
    | .DefineWord .If => processDataGo fuel data (i + 1) rest st
    | .DefineWord .Else => processDataGo fuel data (i + 1) rest st
    | .DefineWord .Then => processDataGo fuel data (i + 1) rest st

/-- `Forth::process_data`. -/
def processData (fuel : Nat) (st : ExecState)
    (data : List ForthInstruction) : Option PRes :=
  processDataGo fuel data 0 data st

/-- The per-line body of `run` (`src/lib.rs`): the whole line is
lower-cased, parsed against the current dictionary, and processed. -/
def runLine (fuel : Nat) (st : ExecState) (line : List Nat) : Option PRes :=
  processData fuel st (parseInstructions (lowerLine line) st.wm)

/-! ## Abstract stack-operation sequences (for the stack invariant) -/

/-- One stack operation, as issued by the interpreter. -/
inductive SOp where
  | push (v : Int)
  | drop
  | dup
  | swap
  | over
  | rot
  | top
deriving DecidableEq, Repr

/-- The stack after one operation: callers keep using the mutated stack
whether or not the call succeeded. -/
def applyOp (s : Stack) : SOp → Stack
  | .push v => (s.push v).state
  | .drop => s.drop.state
  | .dup => s.dup.state
  | .swap => s.swap.state
  | .over => s.over.state
  | .rot => s.rot.state
  | .top => s.top.state

/-- The stack after a sequence of operations. -/
def runOps (s : Stack) : List SOp → Stack
  | [] => s
  | op :: rest => runOps (applyOp s op) rest

/-! ## Helper lemmas about the stack operations -/

theorem top_state (s : Stack) : s.top.state = s := by
  obtain ⟨cap, sz, data⟩ := s
  cases data <;> rfl

theorem swap_ok (cap : Nat) (b a : Int) (rest : List Int)
    (hcap : rest.length + 2 ≤ cap + 1) :
    (Stack.mk cap (rest.length + 2) (b :: a :: rest)).swap =
      .ok () (Stack.mk cap (rest.length + 2) (b :: a :: rest)) := by
  have h1 : ¬ (rest.length + 2 < 2) := by omega
  have h3 : ¬ (rest.length > cap) := by omega
  have h4 : ¬ (rest.length + 1 > cap) := by omega
  simp [Stack.swap, Stack.drop, Stack.push, Stack.isEmpty, SRes.state,
    h1, h3, h4]

theorem rot_ok (cap : Nat) (c b a : Int) (rest : List Int)
    (hcap : rest.length + 3 ≤ cap + 1) :
    (Stack.mk cap (rest.length + 3) (c :: b :: a :: rest)).rot =
      .ok () (Stack.mk cap (rest.length + 3) (a :: c :: b :: rest)) := by
  have h1 : ¬ (rest.length + 3 < 3) := by omega
  have h3 : ¬ (rest.length > cap) := by omega
  have h4 : ¬ (rest.length + 1 > cap) := by omega
  have h5 : ¬ (rest.length + 2 > cap) := by omega
  simp [Stack.rot, Stack.drop, Stack.push, Stack.isEmpty, SRes.state,
    h1, h3, h4, h5]

theorem over_ok (cap : Nat) (b a : Int) (rest : List Int)
    (hcap : rest.length + 2 < cap) :
    (Stack.mk cap (rest.length + 2) (b :: a :: rest)).over =
      .ok () (Stack.mk cap (rest.length + 3) (a :: b :: a :: rest)) := by
  have h1 : ¬ (rest.length + 2 < 2) := by omega
  have h2 : ¬ (rest.length + 2 ≥ cap) := by omega
  have h3 : ¬ (rest.length + 1 > cap) := by omega
  have h4 : ¬ (rest.length + 2 > cap) := by omega
  simp [Stack.over, Stack.drop, Stack.push, Stack.top, Stack.isEmpty,
    SRes.state, h1, h2, h3, h4]

theorem swap_underflow (s : Stack) (h : s.size < 2) :
    s.swap = .err (.StackError .Underflow) s := by
  simp [Stack.swap, h]

theorem over_underflow (s : Stack) (h : s.size < 2) :
    s.over = .err (.StackError .Underflow) s := by
  simp [Stack.over, h]

theorem over_overflow (s : Stack) (h2 : ¬ s.size < 2)
    (h : s.size ≥ s.capacity) : s.over = .err (.StackError .Overflow) s := by
  simp [Stack.over, h2, h]

theorem rot_underflow (s : Stack) (h : s.size < 3) :
    s.rot = .err (.StackError .Underflow) s := by
  simp [Stack.rot, h]

theorem data_two (data : List Int) (h : 2 ≤ data.length) :
    ∃ b a rest, data = b :: a :: rest := by
  match data with
  | b :: a :: rest => exact ⟨b, a, rest, rfl⟩
  | [] => simp at h
  | [b] => simp at h

theorem data_three (data : List Int) (h : 3 ≤ data.length) :
    ∃ c b a rest, data = c :: b :: a :: rest := by
  match data with
  | c :: b :: a :: rest => exact ⟨c, b, a, rest, rfl⟩
  | [] => simp at h
  | [c] => simp at h
  | [c, b] => simp at h

theorem applyOp_wf (s : Stack) (op : SOp) (h : s.wf) : (applyOp s op).wf := by
  obtain ⟨cap, sz, data⟩ := s
  obtain ⟨hlen, hcap⟩ := h
  simp only at hlen hcap
  cases op with
  | push v =>
      simp only [applyOp, Stack.push]
      split
      · exact ⟨hlen, hcap⟩
      · next hguard =>
          simp only [SRes.state]
          exact ⟨by simp; omega, by simp at hguard ⊢; omega⟩
  | drop =>
      simp only [applyOp, Stack.drop, Stack.isEmpty]
      split
      · exact ⟨hlen, hcap⟩
      · next hne =>
          cases data with
          | nil => exact ⟨hlen, hcap⟩
          | cons v rest =>
              simp only [SRes.state]
              simp only [List.length_cons] at hlen
              exact ⟨by simp; omega, by simp; omega⟩
  | top => rw [applyOp, top_state]; exact ⟨hlen, hcap⟩
  | dup =>
      simp only [applyOp, Stack.dup]
      split
      · exact ⟨hlen, hcap⟩
      · next hlt =>
          cases data with
          | nil => simp only [Stack.top, SRes.state]; exact ⟨hlen, hcap⟩
          | cons t rest =>
              have hg : ¬ (sz > cap) := by omega
              simp only [Stack.top, Stack.push, SRes.state, gt_iff_lt]
              rw [if_neg (by omega)]
              simp only [SRes.state]
              simp only [List.length_cons] at hlen
              exact ⟨by simp; omega, by simp; omega⟩
  | swap =>
      simp only [applyOp]
      by_cases hsz : sz < 2
      · rw [swap_underflow _ (by simpa using hsz)]
        exact ⟨hlen, hcap⟩
      · obtain ⟨b, a, rest, rfl⟩ := data_two data (by omega)
        simp only [List.length_cons] at hlen
        have heq : sz = rest.length + 2 := by omega
        subst heq
        rw [swap_ok cap b a rest (by omega)]
        refine ⟨?_, ?_⟩
        · show rest.length + 2 = (b :: a :: rest).length
          simp
        · show rest.length + 2 ≤ cap + 1
          omega
  | over =>
      simp only [applyOp]
      by_cases hsz : sz < 2
      · rw [over_underflow _ (by simpa using hsz)]
        exact ⟨hlen, hcap⟩
      · by_cases hov : sz ≥ cap
        · rw [over_overflow _ (by simpa using hsz) (by simpa using hov)]
          exact ⟨hlen, hcap⟩
        · obtain ⟨b, a, rest, rfl⟩ := data_two data (by omega)
          simp only [List.length_cons] at hlen
          have heq : sz = rest.length + 2 := by omega
          subst heq
          rw [over_ok cap b a rest (by omega)]
          refine ⟨?_, ?_⟩
          · show rest.length + 3 = (a :: b :: a :: rest).length
            simp
          · show rest.length + 3 ≤ cap + 1
            omega
  | rot =>
      simp only [applyOp]
      by_cases hsz : sz < 3
      · rw [rot_underflow _ (by simpa using hsz)]
        exact ⟨hlen, hcap⟩
      · obtain ⟨c, b, a, rest, rfl⟩ := data_three data (by omega)
        simp only [List.length_cons] at hlen
        have heq : sz = rest.length + 3 := by omega
        subst heq
        rw [rot_ok cap c b a rest (by omega)]
        refine ⟨?_, ?_⟩
        · show rest.length + 3 = (a :: c :: b :: rest).length
          simp
        · show rest.length + 3 ≤ cap + 1
          omega

theorem runOps_wf (ops : List SOp) (s : Stack) (h : s.wf) :
    (runOps s ops).wf := by
  induction ops generalizing s with
  | nil => exact h
  | cons op rest ih => exact ih (applyOp s op) (applyOp_wf s op h)

theorem new_wf (c : Option Nat) : (Stack.new c).wf := by
  constructor <;> simp [Stack.new]

deriving instance DecidableEq for Except

/-! ## Concrete scenarios used by individual claims -/

/-- The word name `foo`. -/
def c1Foo : List Nat := [ch 'f', ch 'o', ch 'o']

/-- The word name `bar`. -/
def c1Bar : List Nat := [ch 'b', ch 'a', ch 'r']

/-- The non-transitive-redefinition scenario: define `foo` to push 5,
`bar` to invoke `foo`, redefine `foo` to push 6, then execute `bar` and
`foo` on an empty default stack with no writer; the result is the final
stack content (bottom first). -/
def c1Run : Option (List Int) :=
  match defineNewWord WordManager.new c1Foo [.Number 5, .EndDefinition] with
  | .error _ => none
  | .ok wm1 =>
    match defineNewWord wm1 c1Bar
        [.DefineWord (.Name c1Foo), .EndDefinition] with
    | .error _ => none
    | .ok wm2 =>
      match defineNewWord wm2 c1Foo [.Number 6, .EndDefinition] with
      | .error _ => none
      | .ok wm3 =>
        match executeWord 16 ⟨wm3, Stack.new none, false, []⟩ c1Bar with
        | some (.ok st1) =>
          match executeWord 16 st1 c1Foo with
          | some (.ok st2) => some st2.stack.getStackContent
          | _ => none
        | _ => none

/-- The C3 scenario: a compiled word whose body is `1 3 -`, executed on
an empty default stack. -/
def c3Run : Option (List Int) :=
  match defineNewWord WordManager.new [ch 'w']
      [.Number 1, .Number 3, .Operator [ch '-'], .EndDefinition] with
  | .error _ => none
  | .ok wm =>
    match executeWord 16 ⟨wm, Stack.new none, false, []⟩ [ch 'w'] with
    | some (.ok st) => some st.stack.getStackContent
    | _ => none

/-- The C5 scenario: a compiled word whose body is an `If` with no
matching `Then` followed by `7`, executed with the condition `-1` on the
stack. -/
def c5Run : Option ExecRes :=
  match defineNewWord WordManager.new [ch 'w']
      [.DefineWord .If, .Number 7, .EndDefinition] with
  | .error _ => none
  | .ok wm => executeWord 16 ⟨wm, Stack.mk 64 1 [-1], false, []⟩ [ch 'w']

/-! ## Claim theorems -/

/-- C1: after defining `foo` to push 5, then `bar` to invoke `foo`, then
redefining `foo` to push 6, executing `bar` and then `foo` on an empty
operand stack leaves the stack equal to `[5, 6]` — the reference inside
`bar` is frozen at `bar`'s definition time while a direct invocation of
`foo` uses its newest body. -/
theorem c1_non_transitive_redefinition : c1Run = some [5, 6] := by decide

/-- C2 counterexample: with byte capacity 2 the element capacity is 1,
yet a `push` performed when `size = capacity = 1` succeeds and drives the
size to `capacity + 1 = 2`, instead of failing with `Overflow` as the
claim (`push` succeeds exactly when `size < capacity`, and
`size ≤ capacity` always holds) requires. -/
theorem c2_counterexample_push_at_capacity :
    (Stack.new (some 2)).capacity = 1 ∧
    ((Stack.new (some 2)).push 1).state.size = 1 ∧
    ((Stack.new (some 2)).push 1).state.push 2 =
      .ok () (Stack.mk 1 2 [2, 1]) := by decide

/-- C2 (amended): `push v` appends `v` and increments `size` exactly when
`size ≤ capacity` and fails with `Overflow` when `capacity < size`; the
element capacity is the byte capacity divided by 2 (default 128 bytes);
consequently `0 ≤ size ≤ capacity + 1` (not `capacity`) holds after every
sequence of stack operations, together with `size = data.length`. -/
theorem c2_push_bound_and_stack_invariant :
    (∀ (s : Stack) (v : Int),
      (s.size ≤ s.capacity →
        s.push v = .ok () (Stack.mk s.capacity (s.size + 1) (v :: s.data))) ∧
      (s.capacity < s.size → s.push v = .err (.StackError .Overflow) s)) ∧
    (∀ c : Option Nat, (Stack.new c).capacity = c.getD DEFAULT_CAPACITY / 2) ∧
    (∀ (c : Option Nat) (ops : List SOp),
      (runOps (Stack.new c) ops).size ≤ (runOps (Stack.new c) ops).capacity + 1 ∧
      (runOps (Stack.new c) ops).size = (runOps (Stack.new c) ops).data.length) := by
  refine ⟨?_, ?_, ?_⟩
  · intro s v
    obtain ⟨cap, sz, data⟩ := s
    constructor
    · intro hle
      simp only at hle
      simp [Stack.push, show ¬ (sz > cap) from by omega]
    · intro hgt
      simp only at hgt
      simp [Stack.push, show sz > cap from by omega]
  · intro c
    cases c <;> rfl
  · intro c ops
    have h := runOps_wf ops (Stack.new c) (new_wf c)
    exact ⟨h.2, h.1⟩

/-- C2 witness: the amended push contract applied at concrete stacks. -/
theorem c2_push_bound_and_stack_invariant_witness :
    (Stack.mk 1 1 [5]).push 7 = .ok () (Stack.mk 1 (1 + 1) (7 :: [5])) ∧
    (Stack.mk 1 2 [7, 5]).push 9 =
      .err (.StackError .Overflow) (Stack.mk 1 2 [7, 5]) :=
  ⟨(c2_push_bound_and_stack_invariant.1 (Stack.mk 1 1 [5]) 7).1 (by decide),
   (c2_push_bound_and_stack_invariant.1 (Stack.mk 1 2 [7, 5]) 9).2 (by decide)⟩

/-- C3 (the code evaluated at the failing input): inside a compiled word
body the operator arm calls `calculate(operand2, operand1, _)`, so the
body `1 3 -` leaves `3 - 1 = 2` on the stack, while the claim (and the
top-level `handle_calculate`, shown for contrast) computes
`a - b = 1 - 3 = -2`. -/
theorem c3_operator_order_swapped_in_word_body :
    c3Run = some [2] ∧
    handleCalculate ⟨Stack.mk 64 2 [3, 1], false, []⟩ [ch '-'] =
      .ok ⟨Stack.mk 64 1 [-2], false, []⟩ ∧
    (2 : Int) ≠ 1 - 3 := by decide

/-- C4 (the code evaluated at the failing input): when `StartDefinition`
is the last instruction, `process_word` indexes `data[i + 1]` out of
bounds and panics instead of returning `InvalidWord`; the other shapes
of the claim behave as stated (non-name after `:` and a missing
`EndDefinition` give `InvalidWord`; the well-formed shape defines the
word). -/
theorem c4_process_word_panics_on_trailing_start :
    processWord WordManager.new [.StartDefinition] = .panicked ∧
    processWord WordManager.new [.StartDefinition, .Number 3] =
      .ret (.error (.ForthError .InvalidWord)) ∧
    processWord WordManager.new
      [.StartDefinition, .DefineWord (.Name [ch 'w']), .Number 5] =
      .ret (.error (.ForthError .InvalidWord)) ∧
    processWord WordManager.new
      [.StartDefinition, .DefineWord (.Name [ch 'w']), .Number 5,
        .EndDefinition] =
      .ret (.ok (WordManager.mk [([ch 'w'], 0)] [[.Number 5]] [] 0)) := by
  decide

/-- C5 counterexample: executing a compiled body containing an `If` with
no matching `Then` returns `Ok` (the condition is popped and execution
continues with the next instruction, pushing 7) — it does not fail with
`InvalidWord` as the claim states. -/
theorem c5_counterexample_if_without_then_is_ok :
    c5Run = some (.ok ⟨WordManager.mk [([ch 'w'], 0)]
      [[.DefineWord .If, .Number 7]] [] 0, Stack.mk 64 1 [7], false, []⟩) := by
  decide

/-- C5 (amended): executing a compiled word body that contains an `If`
marker with no matching `Then` at the same nesting depth pops the
condition, ignores the `If` (no branch is taken and no error is raised)
and continues executing the subsequent instructions, returning `Ok`. -/
theorem c5_if_without_then_continues (cond n : Int) :
    (match defineNewWord WordManager.new [ch 'w']
        [.DefineWord .If, .Number n, .EndDefinition] with
     | .error _ => none
     | .ok wm =>
        executeWord 16 ⟨wm, Stack.mk 64 1 [cond], false, []⟩ [ch 'w']) =
    some (.ok ⟨WordManager.mk [([ch 'w'], 0)]
      [[.DefineWord .If, .Number n]] [] 0, Stack.mk 64 1 [n], false, []⟩) := by
  rfl

/-- C7 counterexample: with no writer configured, executing `Dot` on the
stack `[5]` returns `Ok` but pops the value — the interpreter state is
not left unchanged as the claim states. -/
theorem c7_counterexample_dot_pops_without_writer :
    handleOutputDot ⟨Stack.mk 64 1 [5], false, []⟩ =
      .ok ⟨Stack.mk 64 0 [], false, []⟩ ∧
    Stack.mk 64 0 ([] : List Int) ≠ Stack.mk 64 1 [5] := by decide

/-- C7 (amended): when no writer is configured every Output opcode
returns `Ok` and writes nothing, and `CR` and `DotQuote` leave the state
unchanged; but `Dot` still pops the top value (in both the handler and
word-body execution), and the handler's `Emit` also pops, while
word-body `Emit` checks the writer first and leaves the stack
untouched. -/
theorem c7_no_writer_output_effects :
    (∀ st : HandlerState, st.writerPresent = false →
      handleOutputDot st = .ok { st with stack := st.stack.drop.state } ∧
      handleOutputCr st = .ok st ∧
      handleOutputEmit st = .ok { st with stack := st.stack.drop.state } ∧
      (∀ q : List Nat, handleOutputDotQuote st q = .ok st)) ∧
    (∀ (stk : Stack) (out : List Nat),
      execInstr 2 0 0 ⟨WordManager.mk [] [[.OutputDot]] [] 0, stk, false, out⟩ =
        some (.ok ⟨WordManager.mk [] [[.OutputDot]] [] 0,
          stk.drop.state, false, out⟩) ∧
      execInstr 2 0 0 ⟨WordManager.mk [] [[.OutpuEmit]] [] 0, stk, false, out⟩ =
        some (.ok ⟨WordManager.mk [] [[.OutpuEmit]] [] 0, stk, false, out⟩) ∧
      execInstr 2 0 0 ⟨WordManager.mk [] [[.OutputCR]] [] 0, stk, false, out⟩ =
        some (.ok ⟨WordManager.mk [] [[.OutputCR]] [] 0, stk, false, out⟩) ∧
      (∀ q : List Nat,
        execInstr 2 0 0
            ⟨WordManager.mk [] [[.OutputDotQuote q]] [] 0, stk, false, out⟩ =
          some (.ok ⟨WordManager.mk [] [[.OutputDotQuote q]] [] 0,
            stk, false, out⟩))) := by
  constructor
  · intro st h
    refine ⟨?_, ?_, ?_, ?_⟩
    · cases hd : st.stack.drop <;> simp [handleOutputDot, hd, h, SRes.state]
    · simp [handleOutputCr, h]
    · cases hd : st.stack.drop with
      | ok top s =>
          by_cases hr : 0 ≤ top ∧ top ≤ 255 <;>
            simp [handleOutputEmit, hd, h, hr, SRes.state]
      | err e s => simp [handleOutputEmit, hd, SRes.state]
    · intro q; simp [handleOutputDotQuote, h]
  · intro stk out
    refine ⟨?_, ?_, ?_, ?_⟩
    · cases hd : stk.drop <;> simp [execInstr, hd, SRes.state]
    · simp [execInstr]
    · simp [execInstr]
    · intro q; simp [execInstr]

/-- C7 witness: the no-writer effects applied at a concrete state. -/
theorem c7_no_writer_output_effects_witness :
    handleOutputDot ⟨Stack.mk 64 2 [8, 9], false, []⟩ =
      .ok ⟨(Stack.mk 64 2 [8, 9]).drop.state, false, []⟩ :=
  (c7_no_writer_output_effects.1 ⟨Stack.mk 64 2 [8, 9], false, []⟩ rfl).1

/-- C8 counterexample: `parse_stack_size` never checks the text before
`=`, so `x=4` is accepted with `Ok(4)`, and `stack-size=0` is accepted
with `Ok(0)` although 0 is not a positive integer — contradicting the
claim that every string not of the form `stack-size=N` (N positive)
yields `InvalidStackSize`. -/
theorem c8_counterexample_prefix_unchecked :
    parseStackSize [ch 'x', ch '=', ch '4'] = .ok 4 ∧
    parseStackSize [ch 's', ch 't', ch 'a', ch 'c', ch 'k', ch '-',
      ch 's', ch 'i', ch 'z', ch 'e', ch '=', ch '0'] = .ok 0 := by decide

/-- C8 (amended): `parse_stack_size(s)` returns `Ok(N)` exactly when `s`
contains exactly one `=` and the text after it parses as a nonnegative
`usize` `N` (the text before `=` is not checked and 0 is accepted);
every other string yields `InvalidStackSize`.  At the CLI level a
missing or empty path fails with `MissingPath`, and an invalid
`stack-size` argument is non-fatal: the configuration is built with no
explicit size (the default is used), while a valid one is recorded. -/
theorem c8_parse_stack_size_characterization :
    (∀ (s : List Nat) (n : Nat),
      parseStackSize s = .ok n ↔
        (splitOnEq s).length = 2 ∧
          parseUsize ((splitOnEq s).getD 1 []) = some n) ∧
    (∀ args : List (List Nat), args.length < 2 →
      Config.build args = .error .MissingPathError) ∧
    (∀ prog path bad : List Nat, path ≠ [] →
      parseStackSize bad = .error .InvalidStackSize →
      Config.build [prog, path, bad] = .ok ⟨path, none⟩) ∧
    (∀ (prog path size_arg : List Nat) (n : Nat), path ≠ [] →
      size_arg ≠ [] → parseStackSize size_arg = .ok n →
      Config.build [prog, path, size_arg] = .ok ⟨path, some n⟩) := by
  refine ⟨?_, ?_, ?_, ?_⟩
  · intro s n
    simp only [parseStackSize]
    split
    · next hlen => simp [hlen]
    · next hlen =>
        split
        · next m hm =>
            rw [List.getD_eq_getElem _ _ (by omega)] at hm
            simp [hm, show (splitOnEq s).length = 2 from by omega]
        · next hm =>
            rw [List.getD_eq_getElem _ _ (by omega)] at hm
            simp [hm, show (splitOnEq s).length = 2 from by omega]
  · intro args h
    unfold Config.build
    rw [if_pos (Or.inl h)]
  · intro prog path bad hpath hbad
    unfold Config.build
    rw [if_neg (by simp [hpath])]
    by_cases hb : bad = []
    · simp [hb]
    · simp [hb, hbad]
  · intro prog path size_arg n hpath hne hok
    unfold Config.build
    rw [if_neg (by simp [hpath])]
    simp [hne, hok]

/-- C8 witness: the characterization and the CLI behaviour applied at
concrete inputs. -/
theorem c8_parse_stack_size_characterization_witness :
    parseStackSize [ch 'a', ch '=', ch '5'] = .ok 5 ∧
    Config.build [[ch 'p']] = .error .MissingPathError ∧
    Config.build [[ch 'p'], [ch 'f'], [ch 'x']] = .ok ⟨[ch 'f'], none⟩ ∧
    Config.build [[ch 'p'], [ch 'f'], [ch 's', ch '=', ch '8']] =
      .ok ⟨[ch 'f'], some 8⟩ :=
  ⟨(c8_parse_stack_size_characterization.1 [ch 'a', ch '=', ch '5'] 5).mpr
      (by decide),
   c8_parse_stack_size_characterization.2.1 [[ch 'p']] (by decide),
   c8_parse_stack_size_characterization.2.2.1 [ch 'p'] [ch 'f'] [ch 'x']
      (by decide) (by decide),
   c8_parse_stack_size_characterization.2.2.2 [ch 'p'] [ch 'f']
      [ch 's', ch '=', ch '8'] 8 (by decide) (by decide) (by decide)⟩

/-- C9: on every well-formed stack of size ≥ 2, performing `swap` twice
restores the exact original stack; on every well-formed stack whose top
three elements (bottom-to-top) are `a b c`, a single `rot` turns them
into `b c a` (with `a` on top); and performing `rot` three times is the
identity on stacks of size ≥ 3. -/
theorem c9_swap_swap_and_rot_identities :
    (∀ s : Stack, s.wf → 2 ≤ s.size → s.swap.state.swap = .ok () s) ∧
    (∀ (s : Stack) (c b a : Int) (rest : List Int),
      s.wf → s.data = c :: b :: a :: rest →
      s.rot = .ok () (Stack.mk s.capacity s.size (a :: c :: b :: rest))) ∧
    (∀ s : Stack, s.wf → 3 ≤ s.size → s.rot.state.rot.state.rot = .ok () s) := by
  refine ⟨?_, ?_, ?_⟩
  · intro s hwf hsz
    obtain ⟨cap, sz, data⟩ := s
    obtain ⟨hlen, hcap⟩ := hwf
    simp only at hlen hcap hsz
    obtain ⟨b, a, rest, rfl⟩ := data_two data (by omega)
    simp only [List.length_cons] at hlen
    have heq : sz = rest.length + 2 := by omega
    subst heq
    rw [swap_ok cap b a rest (by omega)]
    simp only [SRes.state]
    rw [swap_ok cap b a rest (by omega)]
  · intro s c b a rest hwf hdata
    obtain ⟨cap, sz, data⟩ := s
    obtain ⟨hlen, hcap⟩ := hwf
    simp only at hlen hcap hdata
    subst hdata
    simp only [List.length_cons] at hlen
    have heq : sz = rest.length + 3 := by omega
    subst heq
    exact rot_ok cap c b a rest (by omega)
  · intro s hwf hsz
    obtain ⟨cap, sz, data⟩ := s
    obtain ⟨hlen, hcap⟩ := hwf
    simp only at hlen hcap hsz
    obtain ⟨c, b, a, rest, rfl⟩ := data_three data (by omega)
    simp only [List.length_cons] at hlen
    have heq : sz = rest.length + 3 := by omega
    subst heq
    rw [rot_ok cap c b a rest (by omega)]
    simp only [SRes.state]
    rw [rot_ok cap a c b rest (by omega)]
    simp only [SRes.state]
    rw [rot_ok cap b a c rest (by omega)]

/-! ## Tokenizer lemmas for C6 -/

theorem slice_subset (input : List Nat) (a b : Nat) :
    ∀ c ∈ slice input a b, c ∈ input := fun _ hc =>
  List.take_subset b input (List.drop_subset a (input.take b) hc)

theorem getD_mem (input : List Nat) (i : Nat) (h : i < input.length) :
    input.getD i 0 ∈ input := by
  rw [List.getD_eq_getElem _ _ h]
  exact List.getElem_mem h

theorem tokens_snoc_inv (input : List Nat) (tokens : List (List Nat))
    (extra : List Nat)
    (hinv : ∀ t ∈ tokens, ∀ c ∈ t, c ∈ input)
    (hextra : ∀ c ∈ extra, c ∈ input) :
    ∀ t ∈ tokens ++ [extra], ∀ c ∈ t, c ∈ input := by
  intro t ht
  rcases List.mem_append.mp ht with h | h
  · exact hinv t h
  · rw [List.mem_singleton.mp h]
    exact hextra

theorem tokens_flush_inv (input : List Nat) (tokens : List (List Nat))
    (start i : Nat) (hinv : ∀ t ∈ tokens, ∀ c ∈ t, c ∈ input) :
    ∀ t ∈ (if start < i then tokens ++ [slice input start i] else tokens),
      ∀ c ∈ t, c ∈ input := by
  split
  · exact tokens_snoc_inv input tokens _ hinv (slice_subset input start i)
  · exact hinv

theorem tokenizeLoop_exit (input : List Nat) (fuel i start : Nat)
    (tokens : List (List Nat)) (h : input.length ≤ i) :
    tokenizeLoop input fuel i start tokens =
      if start < input.length then tokens ++ [slice input start input.length]
      else tokens := by
  cases fuel with
  | zero => rw [tokenizeLoop]
  | succ fuel => rw [tokenizeLoop, if_neg (by omega)]

theorem tokenizeLoop_chars (input : List Nat) :
    ∀ (fuel i start : Nat) (tokens : List (List Nat)),
      (∀ t ∈ tokens, ∀ c ∈ t, c ∈ input) →
      ∀ t ∈ tokenizeLoop input fuel i start tokens, ∀ c ∈ t, c ∈ input := by
  intro fuel
  induction fuel with
  | zero =>
      intro i start tokens hinv
      rw [tokenizeLoop]
      split
      · exact tokens_snoc_inv input tokens _ hinv
          (slice_subset input start input.length)
      · exact hinv
  | succ fuel ih =>
      intro i start tokens hinv
      rw [tokenizeLoop]
      by_cases hi : i < input.length
      · rw [if_pos hi]
        by_cases hq : (input.getD i 0 == ch '.' && startsWithDQ input i) = true
        · rw [if_pos hq]
          by_cases h2 :
              findQuote input (input.length + 1) (i + 2) < input.length
          · rw [if_pos h2]
            exact ih _ _ _
              (tokens_snoc_inv input _ _
                (tokens_flush_inv input tokens start i hinv)
                (slice_subset input i _))
          · rw [if_neg h2]
            exact ih _ _ _ (tokens_flush_inv input tokens start i hinv)
        · rw [if_neg hq]
          by_cases hw : isWhitespaceC (input.getD i 0) = true
          · rw [if_pos hw]
            exact ih _ _ _ (tokens_flush_inv input tokens start i hinv)
          · rw [if_neg hw]
            by_cases hcolon :
                (input.getD i 0 == ch ':' || input.getD i 0 == ch ';') = true
            · rw [if_pos hcolon]
              refine ih _ _ _
                (tokens_snoc_inv input _ _
                  (tokens_flush_inv input tokens start i hinv) ?_)
              intro c hc
              rw [List.mem_singleton.mp hc]
              exact getD_mem input i hi
            · rw [if_neg hcolon]
              exact ih _ _ _ hinv
      · rw [if_neg hi]
        split
        · exact tokens_snoc_inv input tokens _ hinv
            (slice_subset input start input.length)
        · exact hinv

theorem tokenize_chars (input : List Nat) :
    ∀ t ∈ tokenize input, ∀ c ∈ t, c ∈ input :=
  tokenizeLoop_chars input (input.length + 1) 0 0 [] (by simp)

theorem lowerChar_not_upper (c : Nat) : ¬ (65 ≤ lowerChar c ∧ lowerChar c ≤ 90) := by
  unfold lowerChar
  split <;> omega

theorem lowerLine_no_upper (line : List Nat) :
    ∀ c ∈ lowerLine line, ¬ (65 ≤ c ∧ c ≤ 90) := by
  intro c hc
  obtain ⟨x, _, rfl⟩ := List.mem_map.mp hc
  exact lowerChar_not_upper x

theorem findQuote_eq (input : List Nat) :
    ∀ (fuel i : Nat), input.length - i ≤ fuel →
      findQuote input fuel i = i + firstQuoteIdx (input.drop i) := by
  intro fuel
  induction fuel with
  | zero =>
      intro i hk
      rw [findQuote, List.drop_eq_nil_of_le (by omega)]
      simp [firstQuoteIdx]
  | succ fuel ih =>
      intro i hk
      rw [findQuote]
      by_cases hi : i < input.length
      · rw [if_pos hi]
        have hdrop : input.drop i = input.getD i 0 :: input.drop (i + 1) := by
          rw [List.getD_eq_getElem _ _ hi]
          exact List.drop_eq_getElem_cons hi
        rw [hdrop]
        by_cases hc : input.getD i 0 = ch '"'
        · rw [if_pos hc]
          simp only [firstQuoteIdx, if_pos hc]
          omega
        · rw [if_neg hc]
          rw [ih (i + 1) (by omega)]
          simp only [firstQuoteIdx, if_neg hc]
          omega
      · rw [if_neg hi]
        rw [List.drop_eq_nil_of_le (by omega)]
        simp [firstQuoteIdx]

theorem firstQuoteIdx_concat (s : List Nat) (hq : ch '"' ∉ s) :
    firstQuoteIdx (s ++ [ch '"']) = s.length := by
  induction s with
  | nil => simp [firstQuoteIdx]
  | cons c rest ih =>
      have hc : c ≠ ch '"' := fun h => hq (h ▸ List.mem_cons_self c rest)
      have hrest : ch '"' ∉ rest := fun h => hq (List.mem_cons_of_mem c h)
      rw [List.cons_append]
      simp only [firstQuoteIdx, if_neg hc]
      rw [ih hrest]
      simp

/-- The tokenizer turns the line `." s"` (with `s` free of `"`) into the
single lexeme spanning the whole line. -/
theorem tokenize_dq (s : List Nat) (hq : ch '"' ∉ s) :
    tokenize ([ch '.', ch '"', ch ' '] ++ s ++ [ch '"']) =
      [[ch '.', ch '"', ch ' '] ++ s ++ [ch '"']] := by
  have hlen : ([ch '.', ch '"', ch ' '] ++ s ++ [ch '"']).length =
      s.length + 4 := by simp
  have hfq : findQuote ([ch '.', ch '"', ch ' '] ++ s ++ [ch '"'])
      (([ch '.', ch '"', ch ' '] ++ s ++ [ch '"']).length + 1) 2 =
      s.length + 3 := by
    rw [findQuote_eq _ _ _ (by omega)]
    have hdrop : ([ch '.', ch '"', ch ' '] ++ s ++ [ch '"']).drop 2 =
        ch ' ' :: (s ++ [ch '"']) := by simp
    rw [hdrop]
    have : firstQuoteIdx (ch ' ' :: (s ++ [ch '"'])) =
        firstQuoteIdx (s ++ [ch '"']) + 1 := by
      simp [firstQuoteIdx, show ch ' ' ≠ ch '"' from by decide]
    rw [this, firstQuoteIdx_concat s hq]
    omega
  unfold tokenize
  rw [hlen, tokenizeLoop]
  rw [if_pos (by omega)]
  rw [if_pos (by simp [startsWithDQ, ch])]
  rw [show (0 : Nat) + 2 = 2 from rfl]
  rw [← hlen, hfq]
  rw [if_pos (by omega)]
  rw [tokenizeLoop_exit _ _ _ _ _ (by omega)]
  rw [if_neg (by omega)]
  have hslice : slice ([ch '.', ch '"', ch ' '] ++ s ++ [ch '"']) 0
      (s.length + 3 + 1) = [ch '.', ch '"', ch ' '] ++ s ++ [ch '"'] := by
    simp only [slice, List.drop_zero]
    exact List.take_of_length_le
      (by simp only [List.length_append, List.length_cons, List.length_nil]
          omega)
  simpa using hslice

/-! ## Parser lemmas for C6 and C10 -/

theorem lowerChar_eq_quote (x : Nat) (h : lowerChar x = ch '"') :
    x = ch '"' := by
  have h34 : ch '"' = 34 := rfl
  rw [h34] at h ⊢
  unfold lowerChar at h
  split at h <;> omega

theorem lowerLine_dq (s : List Nat) :
    lowerLine ([ch '.', ch '"', ch ' '] ++ s ++ [ch '"']) =
      [ch '.', ch '"', ch ' '] ++ lowerLine s ++ [ch '"'] := by
  simp [lowerLine, show lowerChar (ch '.') = ch '.' from by decide,
    show lowerChar (ch '"') = ch '"' from by decide,
    show lowerChar (ch ' ') = ch ' ' from by decide]

theorem getLast_dq (l : List Nat) :
    (ch '.' :: ch '"' :: ch ' ' :: (l ++ [ch '"'])).getLast? =
      some (ch '"') := by
  have : ch '.' :: ch '"' :: ch ' ' :: (l ++ [ch '"']) =
      (ch '.' :: ch '"' :: ch ' ' :: l) ++ [ch '"'] := by simp
  rw [this, List.getLast?_concat]

/-- `parse_token` classifies the whole-span `." s"` lexeme as
`OutputDotQuote s` in `OutsideDefinition` (no earlier guard fires). -/
theorem parseToken_dq (s : List Nat) (instructions : List ForthInstruction)
    (wm : WordManager) :
    parseToken (ch '.' :: ch '"' :: ch ' ' :: (s ++ [ch '"'])) instructions
      .OutsideDefinition wm =
      (instructions ++ [.OutputDotQuote s], .OutsideDefinition) := by
  have h1 : ((ch '.' :: ch '"' :: ch ' ' :: (s ++ [ch '"'])) == [ch ':']) =
      false := by
    rw [beq_eq_false_iff_ne]
    intro he
    injection he with e1 _
    exact absurd e1 (by decide)
  have h2 : ((ch '.' :: ch '"' :: ch ' ' :: (s ++ [ch '"'])) == [ch ';']) =
      false := by
    rw [beq_eq_false_iff_ne]
    intro he
    injection he with e1 _
    exact absurd e1 (by decide)
  have h3 : ((ch '.' :: ch '"' :: ch ' ' :: (s ++ [ch '"'])) == [ch '.']) =
      false := by
    rw [beq_eq_false_iff_ne]
    intro he
    injection he with _ e2
    injection e2
  have h4 : eqIgnoreAsciiCase (ch '.' :: ch '"' :: ch ' ' :: (s ++ [ch '"']))
      emitTok = false := by
    rw [eqIgnoreAsciiCase, beq_eq_false_iff_ne]
    intro he
    simp only [lowerLine, emitTok, List.map_cons] at he
    injection he with e1 _
    exact absurd e1 (by decide)
  have h5 : eqIgnoreAsciiCase (ch '.' :: ch '"' :: ch ' ' :: (s ++ [ch '"']))
      crTok = false := by
    rw [eqIgnoreAsciiCase, beq_eq_false_iff_ne]
    intro he
    simp only [lowerLine, crTok, List.map_cons] at he
    injection he with e1 _
    exact absurd e1 (by decide)
  have hg1 : startsWithDot (ch '.' :: ch '"' :: ch ' ' :: (s ++ [ch '"'])) =
      true := by
    simp [startsWithDot]
  have hg2 : endsWithQuote (ch '.' :: ch '"' :: ch ' ' :: (s ++ [ch '"'])) =
      true := by
    unfold endsWithQuote
    rw [getLast_dq]
    simp
  have hcontent : dotQuoteContent (ch '.' :: ch '"' :: ch ' ' ::
      (s ++ [ch '"'])) = s := by
    simp [dotQuoteContent, List.dropLast_concat]
  simp only [parseToken]
  rw [if_neg (by simp [h1]), if_neg (by simp [h2]), if_neg (by simp [h3]),
    if_neg (by simp [h4]), if_neg (by simp [h5]),
    if_pos (by simp [hg1, hg2]), hcontent]

/-- The whole pipeline step on a `." s"` line (any dictionary). -/
theorem parseInstructions_dq (s : List Nat) (hq : ch '"' ∉ s)
    (wm : WordManager) :
    parseInstructions ([ch '.', ch '"', ch ' '] ++ s ++ [ch '"']) wm =
      [.OutputDotQuote s] := by
  unfold parseInstructions
  rw [tokenize_dq s hq]
  have hnorm : [ch '.', ch '"', ch ' '] ++ s ++ [ch '"'] =
      ch '.' :: ch '"' :: ch ' ' :: (s ++ [ch '"']) := by simp
  rw [hnorm]
  simp [parseToken_dq]

theorem isNumber_head (c : Nat) (rest : List Nat)
    (h : isNumber (c :: rest) = true) : c = 45 ∨ (48 ≤ c ∧ c ≤ 57) := by
  simp only [isNumber] at h
  by_cases hc : (c == ch '-') = true
  · exact Or.inl ((beq_iff_eq.mp hc).trans rfl)
  · rw [if_neg (by simpa using hc)] at h
    simp only [List.all_cons, Bool.and_eq_true, isDigitC,
      Bool.and_eq_true, decide_eq_true_eq] at h
    exact Or.inr h.1

/-- For a numeric-looking token every guard before the number branch of
`parse_token` is false. -/
theorem numeric_guards (c : Nat) (rest : List Nat)
    (hh : c = 45 ∨ (48 ≤ c ∧ c ≤ 57)) :
    ((c :: rest) == [ch ':']) = false ∧
    ((c :: rest) == [ch ';']) = false ∧
    ((c :: rest) == [ch '.']) = false ∧
    eqIgnoreAsciiCase (c :: rest) emitTok = false ∧
    eqIgnoreAsciiCase (c :: rest) crTok = false ∧
    startsWithDot (c :: rest) = false := by
  have hlc : lowerChar c = c := by
    unfold lowerChar
    rw [if_neg (by omega)]
  refine ⟨?_, ?_, ?_, ?_, ?_, ?_⟩
  · rw [beq_eq_false_iff_ne]
    intro he
    injection he with e1 e2
    rw [show ch ':' = 58 from rfl] at e1
    omega
  · rw [beq_eq_false_iff_ne]
    intro he
    injection he with e1 e2
    rw [show ch ';' = 59 from rfl] at e1
    omega
  · rw [beq_eq_false_iff_ne]
    intro he
    injection he with e1 e2
    rw [show ch '.' = 46 from rfl] at e1
    omega
  · rw [eqIgnoreAsciiCase, beq_eq_false_iff_ne]
    intro he
    simp only [lowerLine, emitTok, List.map_cons] at he
    injection he with e1 e2
    rw [hlc, show lowerChar (ch 'e') = 101 from by decide] at e1
    omega
  · rw [eqIgnoreAsciiCase, beq_eq_false_iff_ne]
    intro he
    simp only [lowerLine, crTok, List.map_cons] at he
    injection he with e1 e2
    rw [hlc, show lowerChar (ch 'c') = 99 from by decide] at e1
    omega
  · simp only [startsWithDot]
    rw [beq_eq_false_iff_ne]
    intro he
    rw [show ch '.' = 46 from rfl] at he
    omega

/-- C9 witness: the identities applied at the concrete stack holding
`1 2 3` (bottom to top). -/
theorem c9_swap_swap_and_rot_identities_witness :
    (Stack.mk 2 3 [3, 2, 1]).swap.state.swap = .ok () (Stack.mk 2 3 [3, 2, 1]) ∧
    (Stack.mk 2 3 [3, 2, 1]).rot = .ok () (Stack.mk 2 3 [1, 3, 2]) ∧
    (Stack.mk 2 3 [3, 2, 1]).rot.state.rot.state.rot =
      .ok () (Stack.mk 2 3 [3, 2, 1]) :=
  ⟨c9_swap_swap_and_rot_identities.1 (Stack.mk 2 3 [3, 2, 1])
      (by decide) (by decide),
   c9_swap_swap_and_rot_identities.2.1 (Stack.mk 2 3 [3, 2, 1]) 3 2 1 []
      (by decide) rfl,
   c9_swap_swap_and_rot_identities.2.2 (Stack.mk 2 3 [3, 2, 1])
      (by decide) (by decide)⟩

/-- C6 counterexample: `run` lower-cases the whole line before
tokenization, so the quoted literal `." A"` is emitted as `a ` rather
than verbatim `A ` — the original casing of the literal's interior is
not preserved as the claim states. -/
theorem c6_counterexample_dotquote_lowercased :
    runLine 4 ⟨WordManager.new, Stack.new none, true, []⟩
      [ch '.', ch '"', ch ' ', ch 'A', ch '"'] =
      some (.ok ⟨WordManager.new, Stack.new none, true, [ch 'a', ch ' ']⟩) ∧
    [ch 'a', ch ' '] ≠ [ch 'A', ch ' '] := by decide

/-- C6 (amended): for every source line processed by the pipeline, every
lexeme — including a quoted print literal — is lower-cased (the whole
line is lower-cased before tokenization); the interior of a `." …"`
literal is emitted without the surrounding quotes, with its spacing
preserved and a single trailing space, but with ASCII letters
lower-cased rather than in their original casing. -/
theorem c6_lowercasing_and_dotquote_emission :
    (∀ line : List Nat, ∀ t ∈ tokenize (lowerLine line), ∀ c ∈ t,
      ¬ (65 ≤ c ∧ c ≤ 90)) ∧
    (∀ s : List Nat, ch '"' ∉ s → ∀ wm : WordManager,
      parseInstructions (lowerLine ([ch '.', ch '"', ch ' '] ++ s ++
        [ch '"'])) wm = [.OutputDotQuote (lowerLine s)]) ∧
    (∀ (st : ExecState) (q : List Nat), st.writerPresent = true →
      processData 4 st [.OutputDotQuote q] =
        some (.ok { st with output := st.output ++ q ++ [ch ' '] })) := by
  refine ⟨?_, ?_, ?_⟩
  · intro line t ht c hc
    exact lowerLine_no_upper line c (tokenize_chars (lowerLine line) t ht c hc)
  · intro s hq wm
    have hq' : ch '"' ∉ lowerLine s := by
      intro hmem
      obtain ⟨x, hx, hlx⟩ := List.mem_map.mp hmem
      exact hq (lowerChar_eq_quote x hlx ▸ hx)
    rw [lowerLine_dq]
    exact parseInstructions_dq (lowerLine s) hq' wm
  · intro st q h
    simp [processData, processDataGo, h]

/-- C6 witness: the amended pipeline facts applied at the line
`." Hi  U"` (mixed case, double space) and at a concrete emission. -/
theorem c6_lowercasing_and_dotquote_emission_witness :
    parseInstructions (lowerLine ([ch '.', ch '"', ch ' '] ++
        [ch 'H', ch 'i', ch ' ', ch ' ', ch 'U'] ++ [ch '"']))
      WordManager.new =
      [.OutputDotQuote (lowerLine [ch 'H', ch 'i', ch ' ', ch ' ', ch 'U'])] ∧
    processData 4 ⟨WordManager.new, Stack.new none, true, []⟩
      [.OutputDotQuote [ch 'h', ch 'i']] =
      some (.ok ⟨WordManager.new, Stack.new none, true,
        [ch 'h', ch 'i', ch ' ']⟩) ∧
    ¬ (65 ≤ ch 'a' ∧ ch 'a' ≤ 90) :=
  ⟨c6_lowercasing_and_dotquote_emission.2.1
      [ch 'H', ch 'i', ch ' ', ch ' ', ch 'U'] (by decide) WordManager.new,
   by
    have := c6_lowercasing_and_dotquote_emission.2.2
      ⟨WordManager.new, Stack.new none, true, []⟩ [ch 'h', ch 'i'] rfl
    simpa using this,
   c6_lowercasing_and_dotquote_emission.1 [ch 'A'] [ch 'a'] (by decide)
      (ch 'a') (by decide)⟩

/-- C10: an integer-shaped token whose value lies outside the signed
16-bit range is silently dropped — in both `OutsideDefinition` and
`InsideDefinition` the number branch of `parse_token` is selected, the
`i16` parse fails, and nothing is emitted and no error is reported, so
the surrounding instructions parse as if the literal had never been
written (shown end-to-end for `1 40000 2` and `1 -40000 2`). -/
theorem c10_out_of_range_literal_dropped :
    (∀ (token : List Nat) (instructions : List ForthInstruction)
        (state : ParserState) (wm : WordManager),
      state ≠ .ParsingWordName → isNumber token = true →
      parseI16 token = none →
      parseToken token instructions state wm = (instructions, state)) ∧
    parseInstructions [ch '1', ch ' ', ch '4', ch '0', ch '0', ch '0',
      ch '0', ch ' ', ch '2'] WordManager.new = [.Number 1, .Number 2] ∧
    parseInstructions [ch '1', ch ' ', ch '-', ch '4', ch '0', ch '0',
      ch '0', ch '0', ch ' ', ch '2'] WordManager.new =
      [.Number 1, .Number 2] := by
  refine ⟨?_, by decide, by decide⟩
  intro token instructions state wm hstate hnum hpi
  match token, hnum with
  | [], hnum => simp [isNumber] at hnum
  | c :: rest, hnum =>
    have hh := isNumber_head c rest hnum
    obtain ⟨g1, g2, g3, g4, g5, g6⟩ := numeric_guards c rest hh
    cases state with
    | ParsingWordName => exact absurd rfl hstate
    | OutsideDefinition =>
        simp only [parseToken]
        rw [if_neg (by simp [g1]), if_neg (by simp [g2]),
          if_neg (by simp [g3]), if_neg (by simp [g4]),
          if_neg (by simp [g5]), if_neg (by simp [g6]), if_pos hnum, hpi]
    | InsideDefinition =>
        simp only [parseToken]
        rw [if_neg (by simp [g2]), if_neg (by simp [g3]),
          if_neg (by simp [g4]), if_neg (by simp [g5]),
          if_neg (by simp [g6]), if_pos hnum, hpi]

/-- C10 witness: the out-of-range literal `40000` parsed at top level
emits nothing and leaves the parser state unchanged. -/
theorem c10_out_of_range_literal_dropped_witness :
    parseToken [ch '4', ch '0', ch '0', ch '0', ch '0'] [] .OutsideDefinition
      WordManager.new = ([], .OutsideDefinition) :=
  c10_out_of_range_literal_dropped.1 [ch '4', ch '0', ch '0', ch '0', ch '0']
    [] .OutsideDefinition WordManager.new (by decide) (by decide) (by decide)

end RustForth
